import Mathlib

set_option maxRecDepth 1000000
set_option maxHeartbeats 4000000

/-!
Verification of the Sudoku constraint-propagation / backtracking engine.

The development shallowly embeds the two solver variants of the repository:

* namespace `CPB` models `sudoku_cp_backtracking.py` (class `SudokuSolver`):
  squares are indexed `0..80` (square label `Rc` with row letter `R` at
  position `r` and column digit `c` maps to `9*r + (c-1)`; the
  lexicographic order on labels agrees with the numeric order on indices),
  candidate strings are strictly increasing lists of digits, and a board is
  the list of the 81 candidate lists in square order.  The mutually
  recursive `remove_value` / `assign_value` pair is embedded as a single
  fuel-indexed step function over an inductive type of call descriptors;
  fuel exhaustion is the distinguished result `.out`, and the fuel needed
  on boards reachable by the engine is proved bounded (claim C8), so the
  wrappers running at the fixed fuel compute exactly what the Python code
  computes.  Python mutates boards in place, but in this file every failure
  (`False` in Python) discards the board, which is faithful because the
  Python callers never read a board again after a failed call: the search
  layer copies the board before each trial assignment and drops the copy on
  failure, and `propagate_constraints` returns `False` outright.

* namespace `CP` models `sudoku_cp.py`, whose `depth_first_search` does NOT
  copy the board before a trial: there the embedding makes the in-place
  mutation explicit by returning the final state of the board argument
  alongside the success flag, which is what claims C3 and C4 need.

Deviations, each noted where it occurs: Python iterates `peers[square]`
(a `set`) in an unspecified hash order; the embedding fixes the canonical
first-occurrence order of the unit lists.  Python represents a clue of the
input grid via `str(val)` and the substring test `value in '123456789'`;
for grid entries in the documented range [0,9] this is equivalent to
`1 ≤ val ≤ 9`, which is what the embedding uses (theorems carry the range
hypothesis `GridOk`).
-/

namespace CPB

/-- ALLOWED_NUMBERS, the digit string 123456789, as a list of digits. -/
def digits : List Nat := [1, 2, 3, 4, 5, 6, 7, 8, 9]

/-- `self.squares`: the 81 square labels in row-major label order. -/
def squares : List Nat := List.range 81

/-- The row unit through row `r` in label order. -/
def rowUnit (r : Nat) : List Nat := (List.range 9).map (fun c => 9 * r + c)

/-- The column unit through column `c` in label order. -/
def colUnit (c : Nat) : List Nat := (List.range 9).map (fun r => 9 * r + c)

/-- The box unit of box row `br`, box column `bc`, in the row-major order
used by the comprehension in `_generate_units`. -/
def boxUnit (br bc : Nat) : List Nat :=
  ((List.range 3).map (fun dr =>
    (List.range 3).map (fun dc => 9 * (3 * br + dr) + (3 * bc + dc)))).flatten

/-- `unit_list` of `_generate_units`: rows, then columns, then boxes. -/
def unit_list : List (List Nat) :=
  ((List.range 9).map rowUnit) ++ ((List.range 9).map colUnit) ++
    (((List.range 3).map (fun br => (List.range 3).map (fun bc => boxUnit br bc))).flatten)

/-- `self.units[s] = [u for u in unit_list if s in u]`. -/
def units (s : Nat) : List (List Nat) := unit_list.filter (fun u => u.contains s)

/-- Keep-first duplicate removal; the canonical order chosen for the
Python `set` of peers (Python iterates sets in unspecified order). -/
def dedupAux : List Nat → List Nat → List Nat
  | _, [] => []
  | seen, x :: xs => if x ∈ seen then dedupAux seen xs else x :: dedupAux (x :: seen) xs

/-- `self.peers[s] = set(sum(self.units[s], [])) - {s}`. -/
def peers (s : Nat) : List Nat :=
  (dedupAux [] (units s).flatten).filter (fun t => t ≠ s)

end CPB

namespace CP

/-- `UNIT_LIST` of sudoku_cp.py: built from `generate_list`, which pairs the
elements of its first argument with those of the second; the first group
`[generate_list(ROWS, c) for c in COLS]` therefore consists of the COLUMN
units, the second group of the ROW units, then the boxes. -/
def unit_list : List (List Nat) :=
  ((List.range 9).map CPB.colUnit) ++ ((List.range 9).map CPB.rowUnit) ++
    (((List.range 3).map (fun br => (List.range 3).map (fun bc => CPB.boxUnit br bc))).flatten)

/-- `UNITS = dict((s, [u for u in UNIT_LIST if s in u]) for s in SQUARES)`. -/
def units (s : Nat) : List (List Nat) := unit_list.filter (fun u => u.contains s)

/-- `PEERS = dict((s, set(sum(UNITS[s], [])) - set([s])) for s in SQUARES)`. -/
def peers (s : Nat) : List Nat :=
  (CPB.dedupAux [] (units s).flatten).filter (fun t => t ≠ s)

end CP


namespace CPB

/-- A board maps each of the 81 squares (by index) to its candidate list;
`generate_board` starts every square at the full digit string. -/
abbrev Board := List (List Nat)

/-- A 9x9 grid of integers, the external interface type of `solve`. -/
abbrev Grid := List (List Nat)

/-- `board[square]`, the candidate list of a square. -/
def bcell (b : Board) (s : Nat) : List Nat := b.getD s []

/-- Total number of candidates on the board (the propagation measure). -/
def count (b : Board) : Nat := (b.map List.length).sum

/-- Result of a propagation call: the board on success (`True` in Python,
with the board retained by the caller), `False`, or fuel exhaustion. -/
inductive PRes where
  | ok (b : Board)
  | fail
  | out
deriving DecidableEq

/-- Call descriptors for the mutually recursive propagation code:
`rv` is `remove_value`, `rp` its loop over the peers, `hu` its loop over
the units (hidden singles), `av` is `assign_value`, and `re` its loop
removing each of the other values from a square. -/
inductive Call where
  | rv (s v : Nat)
  | rp (ps : List Nat) (v : Nat)
  | hu (us : List (List Nat)) (v : Nat)
  | av (s v : Nat)
  | re (s : Nat) (vs : List Nat)

/-- One fuel-indexed interpreter for `remove_value` / `assign_value` and
their three internal loops, straight from sudoku_cp_backtracking.py.
Each recursive call consumes one unit of fuel; `.out` reports exhaustion
and is proved unreachable for the fuel used by the wrappers below. -/
def step : Nat → Board → Call → PRes
  | 0, _, _ => .out
  | f + 1, b, c =>
    match c with
    | .rv s v =>
      let cs := bcell b s
      if v ∈ cs then
        let cs2 := cs.filter (fun x => x ≠ v)
        let b1 := b.set s cs2
        if cs2.length = 0 then .fail
        else
          match (if cs2.length = 1 then step f b1 (.rp (peers s) (cs2.headD 0)) else .ok b1) with
          | .ok b2 => step f b2 (.hu (units s) v)
          | r => r
      else .ok b
    | .rp ps v =>
      match ps with
      | [] => .ok b
      | p :: rest =>
        match step f b (.rv p v) with
        | .ok b2 => step f b2 (.rp rest v)
        | r => r
    | .hu us v =>
      match us with
      | [] => .ok b
      | u :: rest =>
        let places := u.filter (fun t => (bcell b t).contains v)
        if places.length = 0 then .fail
        else if places.length = 1 ∧ 1 < (bcell b (places.headD 0)).length then
          match step f b (.av (places.headD 0) v) with
          | .ok b2 => step f b2 (.hu rest v)
          | r => r
        else step f b (.hu rest v)
    | .av s v => step f b (.re s ((bcell b s).filter (fun x => x ≠ v)))
    | .re s vs =>
      match vs with
      | [] => .ok b
      | w :: rest =>
        match step f b (.rv s w) with
        | .ok b2 => step f b2 (.re s rest)
        | r => r

/-- Fuel used by the official wrappers; proved sufficient for every board
the engine can reach (see the C8 development). -/
def FUEL : Nat := 400000

/-- `remove_value(board, square, value)` at the official fuel. -/
def remove_value (b : Board) (s v : Nat) : PRes := step FUEL b (.rv s v)

/-- `assign_value(board, square, value)` at the official fuel. -/
def assign_value (b : Board) (s v : Nat) : PRes := step FUEL b (.av s v)

/-- `generate_board`: every square starts with all nine candidates. -/
def generate_board : Board := List.replicate 81 digits

/-- The terminal-success test of `_search`:
`all(len(board[s]) == 1 for s in self.squares)`. -/
def allSolved (b : Board) : Bool := squares.all (fun s => (bcell b s).length == 1)

/-- `min((len(board[s]), s) for s in self.squares if len(board[s]) > 1)`.
Python's `min` on the generator keeps the lexicographically least
`(length, square)` pair, i.e. the first square with minimal length.
On a board with no multi-candidate square Python would raise `ValueError`;
the embedding returns the sentinel `(10, 81)` instead - unreachable from
`solve`, whose search only branches when the terminal test fails on a
board with no empty cell. -/
def chooseSq (b : Board) : Nat × Nat :=
  ((squares.filter (fun s => 1 < (bcell b s).length)).map
      (fun s => ((bcell b s).length, s))).foldl
    (fun acc p => if p.1 < acc.1 ∨ (p.1 = acc.1 ∧ p.2 < acc.2) then p else acc) (10, 81)

/-- Call descriptors for `_search`: the function body and its loop over
the candidate values of the chosen square. -/
inductive SCall where
  | main (b : Board)
  | loop (b : Board) (sq : Nat) (cands : List Nat)

/-- The board a search call works on. -/
def SCall.board : SCall → Board
  | .main b => b
  | .loop b _ _ => b

/-- `_search`, fuel-indexed.  In Python each loop iteration builds an
independent copy `new_board` of `board` and assigns into the copy; with
value semantics the copy is the board argument itself, and the loop
continues with the unchanged `b`. -/
def searchStep : Nat → SCall → PRes
  | 0, _ => .out
  | f + 1, .main b =>
    if allSolved b then .ok b
    else searchStep f (.loop b (chooseSq b).2 (bcell b (chooseSq b).2))
  | f + 1, .loop b sq cands =>
    match cands with
    | [] => .fail
    | v :: rest =>
      match assign_value b sq v with
      | .ok nb =>
        match searchStep f (.main nb) with
        | .ok r => .ok r
        | .fail => searchStep f (.loop b sq rest)
        | .out => .out
      | .fail => searchStep f (.loop b sq rest)
      | .out => .out

/-- Search fuel; 81 levels of recursion never need more (claim C8). -/
def SFUEL : Nat := 1000

/-- `_search(board)` at the official fuel. -/
def search (b : Board) : PRes := searchStep SFUEL (.main b)

/-- The grid-to-puzzle conversion at the top of `solve`: clue list in
square order, one entry per grid cell. -/
def toPuzzle (g : Grid) : List (Nat × Nat) :=
  (g.enum.map (fun ir => ir.2.enum.map (fun jv => (9 * ir.1 + jv.1, jv.2)))).flatten

/-- `propagate_constraints(puzzle, board)`: assign every clue whose value
is one of the allowed digits, failing on the first failed assignment. -/
def propagateGo : List (Nat × Nat) → Board → PRes
  | [], b => .ok b
  | (s, d) :: rest, b =>
    if 1 ≤ d ∧ d ≤ 9 then
      match assign_value b s d with
      | .ok b2 => propagateGo rest b2
      | r => r
    else propagateGo rest b

/-- The solution-to-grid conversion at the bottom of `solve`. -/
def toGrid (b : Board) : Grid :=
  (List.range 9).map (fun i => (List.range 9).map (fun j => (bcell b (9 * i + j)).headD 0))

/-- Result of `solve` with fuel exhaustion kept distinguishable. -/
inductive SR where
  | done (r : Option Grid)
  | timeout
deriving DecidableEq

/-- `SudokuSolver.solve(grid)`: convert, propagate the clues into a fresh
board, search, convert back; `None` when propagation or search failed. -/
def solveCore (g : Grid) : SR :=
  match propagateGo (toPuzzle g) generate_board with
  | .fail => .done none
  | .out => .timeout
  | .ok b =>
    match search b with
    | .ok sol => .done (some (toGrid sol))
    | .fail => .done none
    | .out => .timeout

/-- `solve` as the caller sees it: a solved grid or `None`. -/
def solve (g : Grid) : Option Grid :=
  match solveCore g with
  | .done r => r
  | .timeout => none

/-- `solve` with the final state of the caller's grid object made explicit:
the body of `solve` only ever reads `grid` (the `enumerate` loop), so the
returned state is the argument itself. -/
def solveFull (g : Grid) : Grid × Option Grid := (g, solve g)

/-- Well-formed input grid per the interface contract: 9 rows of 9 entries,
each in [0,9]. -/
def GridOk (g : Grid) : Prop :=
  g.length = 9 ∧ ∀ r ∈ g, r.length = 9 ∧ ∀ v ∈ r, v ≤ 9

instance : DecidablePred GridOk := fun g => by
  unfold GridOk; infer_instance

end CPB

namespace CP

/-- Success flag of a sudoku_cp.py propagation or search call.  Unlike the
CPB embedding, every CP function also returns the final state of its board
argument: `depth_first_search` there passes the live board (not a copy)
into `propagate_constraints`, so mutations performed by a failed trial
persist and must be tracked. -/
inductive Flag where
  | ok
  | fail
  | out
deriving DecidableEq

/-- `pat.isPrefixOf l || ...` scan: the Python substring test `pat in s`. -/
def isSubstr (pat : List Nat) : List Nat → Bool
  | [] => pat.isEmpty
  | x :: rest => pat.isPrefixOf (x :: rest) || isSubstr pat rest

/-- `s.replace(pat, '')` on digit strings: drop every non-overlapping
occurrence of `pat`, scanning left to right (fuel-free via length). -/
def replaceAllF : Nat → List Nat → List Nat → List Nat
  | 0, l, _ => l
  | f + 1, l, pat =>
    match l with
    | [] => []
    | x :: rest =>
      if pat ≠ [] ∧ pat.isPrefixOf (x :: rest) then replaceAllF f (l.drop pat.length) pat
      else x :: replaceAllF f rest pat

/-- `board[square].replace(value, '')` for a possibly multi-digit `value`
(CP's `assign_value` receives whole candidate strings from
`propagate_constraints` inside `depth_first_search`). -/
def replaceAll (l pat : List Nat) : List Nat := replaceAllF l.length l pat

/-- Call descriptors for sudoku_cp.py's `remove_value` / `assign_value`:
as in `CPB.Call`, but `av` carries the full string value Python passes. -/
inductive MCall where
  | rv (s v : Nat)
  | rp (ps : List Nat) (v : Nat)
  | hu (us : List (List Nat)) (v : Nat)
  | av (s : Nat) (pat : List Nat)
  | re (s : Nat) (vs : List Nat)

/-- Fuel-indexed interpreter for sudoku_cp.py's propagation, returning the
mutated board together with the flag.  Differences from CPB kept
faithfully: the hidden-single rule has no `len(board[places[0]]) > 1`
guard, and `assign_value` removes the string-replace of a possibly
multi-digit value. -/
def stepM : Nat → CPB.Board → MCall → CPB.Board × Flag
  | 0, b, _ => (b, .out)
  | f + 1, b, c =>
    match c with
    | .rv s v =>
      let cs := CPB.bcell b s
      if v ∈ cs then
        let cs2 := cs.filter (fun x => x ≠ v)
        let b1 := b.set s cs2
        if cs2.length = 0 then (b1, .fail)
        else
          match (if cs2.length = 1 then stepM f b1 (.rp (peers s) (cs2.headD 0)) else (b1, .ok)) with
          | (b2, .ok) => stepM f b2 (.hu (units s) v)
          | r => r
      else (b, .ok)
    | .rp ps v =>
      match ps with
      | [] => (b, .ok)
      | p :: rest =>
        match stepM f b (.rv p v) with
        | (b2, .ok) => stepM f b2 (.rp rest v)
        | r => r
    | .hu us v =>
      match us with
      | [] => (b, .ok)
      | u :: rest =>
        let places := u.filter (fun t => (CPB.bcell b t).contains v)
        if places.length = 0 then (b, .fail)
        else if places.length = 1 then
          match stepM f b (.av (places.headD 0) [v]) with
          | (b2, .ok) => stepM f b2 (.hu rest v)
          | r => r
        else stepM f b (.hu rest v)
    | .av s pat => stepM f b (.re s (replaceAll (CPB.bcell b s) pat))
    | .re s vs =>
      match vs with
      | [] => (b, .ok)
      | w :: rest =>
        match stepM f b (.rv s w) with
        | (b2, .ok) => stepM f b2 (.re s rest)
        | r => r

/-- `assign_value(board, square, value)` of sudoku_cp.py. -/
def assignM (b : CPB.Board) (s : Nat) (pat : List Nat) : CPB.Board × Flag :=
  stepM CPB.FUEL b (.av s pat)

/-- `propagate_constraints(puzzle, board)` of sudoku_cp.py: the puzzle is
a square-to-string mapping iterated in square order; a clue fires when its
string passes the substring test `value in ALLOWED_NUMBERS`. -/
def propagateM : List (Nat × List Nat) → CPB.Board → CPB.Board × Flag
  | [], b => (b, .ok)
  | (s, v) :: rest, b =>
    if isSubstr v CPB.digits then
      match assignM b s v with
      | (b2, .ok) => propagateM rest b2
      | r => r
    else propagateM rest b

/-- `{**values, s: value}` as an association list in square order: the
puzzle argument `depth_first_search` builds for each trial. -/
def mkPuzzle (values : CPB.Board) (s v : Nat) : List (Nat × List Nat) :=
  (List.range 81).map (fun t => (t, if t = s then [v] else CPB.bcell values t))

/-- Call descriptors for `depth_first_search` and its candidate loop. -/
inductive DCall where
  | main (values : CPB.Board)
  | loop (values : CPB.Board) (s : Nat) (cands : List Nat)

/-- The board held by a `DCall`. -/
def DCall.board : DCall → CPB.Board
  | .main b => b
  | .loop b _ _ => b

/-- `depth_first_search(values)` of sudoku_cp.py, with the in-place
mutation of `values` made explicit: the call
`depth_first_search(propagate_constraints({**values, s: value}, values))`
passes the live board as the propagation target, so the next candidate
(and, on overall failure, the ancestor frame) sees the mutated board. -/
def dfsStep : Nat → DCall → CPB.Board × Flag
  | 0, d => (d.board, .out)
  | f + 1, .main values =>
    if CPB.allSolved values then (values, .ok)
    else dfsStep f (.loop values (CPB.chooseSq values).2
      (CPB.bcell values (CPB.chooseSq values).2))
  | f + 1, .loop values s cands =>
    match cands with
    | [] => (values, .fail)
    | v :: rest =>
      match propagateM (mkPuzzle values s v) values with
      | (v1, .ok) =>
        match dfsStep f (.main v1) with
        | (v2, .ok) => (v2, .ok)
        | (v2, .fail) => dfsStep f (.loop v2 s rest)
        | (v2, .out) => (v2, .out)
      | (v1, .fail) => dfsStep f (.loop v1 s rest)
      | (v1, .out) => (v1, .out)

/-- `depth_first_search` at a fuel ample for the concrete boards below. -/
def depth_first_search (values : CPB.Board) : CPB.Board × Flag :=
  dfsStep 100 (.main values)

end CP

namespace CPB

/-- Row `i` of an output grid. -/
def gridRow (out : Grid) (i : Nat) : List Nat := out.getD i []

/-- Column `j` of an output grid. -/
def gridCol (out : Grid) (j : Nat) : List Nat :=
  (List.range 9).map (fun i => (out.getD i []).getD j 0)

/-- The 3x3 box of an output grid at box row `bi`, box column `bj`. -/
def gridBox (out : Grid) (bi bj : Nat) : List Nat :=
  ((List.range 3).map (fun di =>
    (List.range 3).map (fun dj => (out.getD (3 * bi + di) []).getD (3 * bj + dj) 0))).flatten

/-- Cells with at most 9 candidates each: holds for every board the
engine manipulates and gives the 81*9 bound on the candidate count. -/
def Cells9 (b : Board) : Prop := ∀ l ∈ b, l.length ≤ 9

/-- Fuel demanded by a propagation call: the linear-in-`count` bounds that
make `step` run to completion (`501 * count` pays for the at most
`count ≤ 729` eliminations, the slack for the loop frames in between). -/
def need (b : Board) : Call → Nat
  | .rv _ _ => 501 * count b + 600
  | .rp ps _ => 501 * count b + 610 + ps.length
  | .hu us _ => 501 * count b + 621 + us.length
  | .av _ _ => 501 * count b + 620
  | .re _ vs => 501 * count b + 601 + vs.length

/-- The no-conflict invariant, relative to a set `E` of excused triples:
whenever a square is solved to `d`, no peer still admitting `d` exists
except as excused.  With `E` empty this is exactly the property that makes
an all-singleton board a valid solution. -/
def Consistent (b : Board) (E : Nat → Nat → Nat → Prop) : Prop :=
  ∀ x y d, bcell b x = [d] → y ∈ peers x → d ∈ bcell b y → E x y d

/-- Precondition of the consistency-preservation lemma, per call: a peer
sweep runs while the freshly solved digit may still sit on the listed
peers, so those triples are excused; every other call needs plain
consistency. -/
def PreC : Call → Board → (Nat → Nat → Nat → Prop) → Prop
  | .rp ps fv, b, E => Consistent b (fun x y d => E x y d ∨ (d = fv ∧ y ∈ ps))
  | _, b, E => Consistent b E

/-- A board whose square A1 is solved to 5: `assign_value` of any other
digit to A1 fails on it at once, exercising the failed-trial branch. -/
def wbFrame : Board := generate_board.set 0 [5]

/-- The completed solution of the classic example grid, as a 9x9 grid. -/
def solGrid : Grid :=
  [[5, 3, 4, 6, 7, 8, 9, 1, 2],
   [6, 7, 2, 1, 9, 5, 3, 4, 8],
   [1, 9, 8, 3, 4, 2, 5, 6, 7],
   [8, 5, 9, 7, 6, 1, 4, 2, 3],
   [4, 2, 6, 8, 5, 3, 7, 9, 1],
   [7, 1, 3, 9, 2, 4, 8, 5, 6],
   [9, 6, 1, 5, 3, 7, 2, 8, 4],
   [2, 8, 7, 4, 1, 9, 6, 3, 5],
   [3, 4, 5, 2, 8, 6, 1, 7, 9]]

/-- The board of `solGrid` with square A1 opened up to the two candidates
4 and 5: a branch state whose first trial (4) contradicts the board. -/
def cexBoard : Board := (solGrid.flatten.map (fun d => [d])).set 0 [4, 5]

/-- Clue pairs of row 1 of `solGrid` (entries 0 to 8 of
`toPuzzle solGrid`), used to evaluate the propagation of the clues of
`solGrid` in nine row-sized stages. -/
def solClues1 : List (Nat × Nat) := [(0, 5), (1, 3), (2, 4), (3, 6), (4, 7), (5, 8), (6, 9), (7, 1), (8, 2)]

/-- Clue pairs of row 2 of `solGrid` (entries 9 to 17 of
`toPuzzle solGrid`), used to evaluate the propagation of the clues of
`solGrid` in nine row-sized stages. -/
def solClues2 : List (Nat × Nat) := [(9, 6), (10, 7), (11, 2), (12, 1), (13, 9), (14, 5), (15, 3), (16, 4), (17, 8)]

/-- Clue pairs of row 3 of `solGrid` (entries 18 to 26 of
`toPuzzle solGrid`), used to evaluate the propagation of the clues of
`solGrid` in nine row-sized stages. -/
def solClues3 : List (Nat × Nat) := [(18, 1), (19, 9), (20, 8), (21, 3), (22, 4), (23, 2), (24, 5), (25, 6), (26, 7)]

/-- Clue pairs of row 4 of `solGrid` (entries 27 to 35 of
`toPuzzle solGrid`), used to evaluate the propagation of the clues of
`solGrid` in nine row-sized stages. -/
def solClues4 : List (Nat × Nat) := [(27, 8), (28, 5), (29, 9), (30, 7), (31, 6), (32, 1), (33, 4), (34, 2), (35, 3)]

/-- Clue pairs of row 5 of `solGrid` (entries 36 to 44 of
`toPuzzle solGrid`), used to evaluate the propagation of the clues of
`solGrid` in nine row-sized stages. -/
def solClues5 : List (Nat × Nat) := [(36, 4), (37, 2), (38, 6), (39, 8), (40, 5), (41, 3), (42, 7), (43, 9), (44, 1)]

/-- Clue pairs of row 6 of `solGrid` (entries 45 to 53 of
`toPuzzle solGrid`), used to evaluate the propagation of the clues of
`solGrid` in nine row-sized stages. -/
def solClues6 : List (Nat × Nat) := [(45, 7), (46, 1), (47, 3), (48, 9), (49, 2), (50, 4), (51, 8), (52, 5), (53, 6)]

/-- Clue pairs of row 7 of `solGrid` (entries 54 to 62 of
`toPuzzle solGrid`), used to evaluate the propagation of the clues of
`solGrid` in nine row-sized stages. -/
def solClues7 : List (Nat × Nat) := [(54, 9), (55, 6), (56, 1), (57, 5), (58, 3), (59, 7), (60, 2), (61, 8), (62, 4)]

/-- Clue pairs of row 8 of `solGrid` (entries 63 to 71 of
`toPuzzle solGrid`), used to evaluate the propagation of the clues of
`solGrid` in nine row-sized stages. -/
def solClues8 : List (Nat × Nat) := [(63, 2), (64, 8), (65, 7), (66, 4), (67, 1), (68, 9), (69, 6), (70, 3), (71, 5)]

/-- Clue pairs of row 9 of `solGrid` (entries 72 to 80 of
`toPuzzle solGrid`), used to evaluate the propagation of the clues of
`solGrid` in nine row-sized stages. -/
def solClues9 : List (Nat × Nat) := [(72, 3), (73, 4), (74, 5), (75, 2), (76, 8), (77, 6), (78, 1), (79, 7), (80, 9)]

/-- The board reached from `generate_board` by propagating the clue
pairs `solClues1` (checked by `solveStage1` below). -/
def solB1 : Board := [[5], [3], [4], [6], [7], [8], [9], [1], [2], [1, 2, 6, 7, 8, 9], [1, 2, 6, 7, 8, 9], [1, 2, 6, 7, 8, 9], [1, 2, 3, 4, 5, 9], [1, 2, 3, 4, 5, 9], [1, 2, 3, 4, 5, 9], [3, 4, 5, 6, 7, 8], [3, 4, 5, 6, 7, 8], [3, 4, 5, 6, 7, 8], [1, 2, 6, 7, 8, 9], [1, 2, 6, 7, 8, 9], [1, 2, 6, 7, 8, 9], [1, 2, 3, 4, 5, 9], [1, 2, 3, 4, 5, 9], [1, 2, 3, 4, 5, 9], [3, 4, 5, 6, 7, 8], [3, 4, 5, 6, 7, 8], [3, 4, 5, 6, 7, 8], [1, 2, 3, 4, 6, 7, 8, 9], [1, 2, 4, 5, 6, 7, 8, 9], [1, 2, 3, 5, 6, 7, 8, 9], [1, 2, 3, 4, 5, 7, 8, 9], [1, 2, 3, 4, 5, 6, 8, 9], [1, 2, 3, 4, 5, 6, 7, 9], [1, 2, 3, 4, 5, 6, 7, 8], [2, 3, 4, 5, 6, 7, 8, 9], [1, 3, 4, 5, 6, 7, 8, 9], [1, 2, 3, 4, 6, 7, 8, 9], [1, 2, 4, 5, 6, 7, 8, 9], [1, 2, 3, 5, 6, 7, 8, 9], [1, 2, 3, 4, 5, 7, 8, 9], [1, 2, 3, 4, 5, 6, 8, 9], [1, 2, 3, 4, 5, 6, 7, 9], [1, 2, 3, 4, 5, 6, 7, 8], [2, 3, 4, 5, 6, 7, 8, 9], [1, 3, 4, 5, 6, 7, 8, 9], [1, 2, 3, 4, 6, 7, 8, 9], [1, 2, 4, 5, 6, 7, 8, 9], [1, 2, 3, 5, 6, 7, 8, 9], [1, 2, 3, 4, 5, 7, 8, 9], [1, 2, 3, 4, 5, 6, 8, 9], [1, 2, 3, 4, 5, 6, 7, 9], [1, 2, 3, 4, 5, 6, 7, 8], [2, 3, 4, 5, 6, 7, 8, 9], [1, 3, 4, 5, 6, 7, 8, 9], [1, 2, 3, 4, 6, 7, 8, 9], [1, 2, 4, 5, 6, 7, 8, 9], [1, 2, 3, 5, 6, 7, 8, 9], [1, 2, 3, 4, 5, 7, 8, 9], [1, 2, 3, 4, 5, 6, 8, 9], [1, 2, 3, 4, 5, 6, 7, 9], [1, 2, 3, 4, 5, 6, 7, 8], [2, 3, 4, 5, 6, 7, 8, 9], [1, 3, 4, 5, 6, 7, 8, 9], [1, 2, 3, 4, 6, 7, 8, 9], [1, 2, 4, 5, 6, 7, 8, 9], [1, 2, 3, 5, 6, 7, 8, 9], [1, 2, 3, 4, 5, 7, 8, 9], [1, 2, 3, 4, 5, 6, 8, 9], [1, 2, 3, 4, 5, 6, 7, 9], [1, 2, 3, 4, 5, 6, 7, 8], [2, 3, 4, 5, 6, 7, 8, 9], [1, 3, 4, 5, 6, 7, 8, 9], [1, 2, 3, 4, 6, 7, 8, 9], [1, 2, 4, 5, 6, 7, 8, 9], [1, 2, 3, 5, 6, 7, 8, 9], [1, 2, 3, 4, 5, 7, 8, 9], [1, 2, 3, 4, 5, 6, 8, 9], [1, 2, 3, 4, 5, 6, 7, 9], [1, 2, 3, 4, 5, 6, 7, 8], [2, 3, 4, 5, 6, 7, 8, 9], [1, 3, 4, 5, 6, 7, 8, 9]]

/-- The board reached from `solB1` by propagating the clue
pairs `solClues2` (checked by `solveStage2` below). -/
def solB2 : Board := [[5], [3], [4], [6], [7], [8], [9], [1], [2], [6], [7], [2], [1], [9], [5], [3], [4], [8], [1, 8, 9], [1, 8, 9], [1, 8, 9], [2, 3, 4], [2, 3, 4], [2, 3, 4], [5, 6, 7], [5, 6, 7], [5, 6, 7], [1, 2, 3, 4, 7, 8, 9], [1, 2, 4, 5, 6, 8, 9], [1, 3, 5, 6, 7, 8, 9], [2, 3, 4, 5, 7, 8, 9], [1, 2, 3, 4, 5, 6, 8], [1, 2, 3, 4, 6, 7, 9], [1, 2, 4, 5, 6, 7, 8], [2, 3, 5, 6, 7, 8, 9], [1, 3, 4, 5, 6, 7, 9], [1, 2, 3, 4, 7, 8, 9], [1, 2, 4, 5, 6, 8, 9], [1, 3, 5, 6, 7, 8, 9], [2, 3, 4, 5, 7, 8, 9], [1, 2, 3, 4, 5, 6, 8], [1, 2, 3, 4, 6, 7, 9], [1, 2, 4, 5, 6, 7, 8], [2, 3, 5, 6, 7, 8, 9], [1, 3, 4, 5, 6, 7, 9], [1, 2, 3, 4, 7, 8, 9], [1, 2, 4, 5, 6, 8, 9], [1, 3, 5, 6, 7, 8, 9], [2, 3, 4, 5, 7, 8, 9], [1, 2, 3, 4, 5, 6, 8], [1, 2, 3, 4, 6, 7, 9], [1, 2, 4, 5, 6, 7, 8], [2, 3, 5, 6, 7, 8, 9], [1, 3, 4, 5, 6, 7, 9], [1, 2, 3, 4, 7, 8, 9], [1, 2, 4, 5, 6, 8, 9], [1, 3, 5, 6, 7, 8, 9], [2, 3, 4, 5, 7, 8, 9], [1, 2, 3, 4, 5, 6, 8], [1, 2, 3, 4, 6, 7, 9], [1, 2, 4, 5, 6, 7, 8], [2, 3, 5, 6, 7, 8, 9], [1, 3, 4, 5, 6, 7, 9], [1, 2, 3, 4, 7, 8, 9], [1, 2, 4, 5, 6, 8, 9], [1, 3, 5, 6, 7, 8, 9], [2, 3, 4, 5, 7, 8, 9], [1, 2, 3, 4, 5, 6, 8], [1, 2, 3, 4, 6, 7, 9], [1, 2, 4, 5, 6, 7, 8], [2, 3, 5, 6, 7, 8, 9], [1, 3, 4, 5, 6, 7, 9], [1, 2, 3, 4, 7, 8, 9], [1, 2, 4, 5, 6, 8, 9], [1, 3, 5, 6, 7, 8, 9], [2, 3, 4, 5, 7, 8, 9], [1, 2, 3, 4, 5, 6, 8], [1, 2, 3, 4, 6, 7, 9], [1, 2, 4, 5, 6, 7, 8], [2, 3, 5, 6, 7, 8, 9], [1, 3, 4, 5, 6, 7, 9]]

/-- The board reached from `solB2` by propagating the clue
pairs `solClues3` (checked by `solveStage3` below). -/
def solB3 : Board := [[5], [3], [4], [6], [7], [8], [9], [1], [2], [6], [7], [2], [1], [9], [5], [3], [4], [8], [1], [9], [8], [3], [4], [2], [5], [6], [7], [2, 3, 4, 7, 8, 9], [1, 2, 4, 5, 6, 8], [1, 3, 5, 6, 7, 9], [2, 4, 5, 7, 8, 9], [1, 2, 3, 5, 6, 8], [1, 3, 4, 6, 7, 9], [1, 2, 4, 6, 7, 8], [2, 3, 5, 7, 8, 9], [1, 3, 4, 5, 6, 9], [2, 3, 4, 7, 8, 9], [1, 2, 4, 5, 6, 8], [1, 3, 5, 6, 7, 9], [2, 4, 5, 7, 8, 9], [1, 2, 3, 5, 6, 8], [1, 3, 4, 6, 7, 9], [1, 2, 4, 6, 7, 8], [2, 3, 5, 7, 8, 9], [1, 3, 4, 5, 6, 9], [2, 3, 4, 7, 8, 9], [1, 2, 4, 5, 6, 8], [1, 3, 5, 6, 7, 9], [2, 4, 5, 7, 8, 9], [1, 2, 3, 5, 6, 8], [1, 3, 4, 6, 7, 9], [1, 2, 4, 6, 7, 8], [2, 3, 5, 7, 8, 9], [1, 3, 4, 5, 6, 9], [2, 3, 4, 7, 8, 9], [1, 2, 4, 5, 6, 8], [1, 3, 5, 6, 7, 9], [2, 4, 5, 7, 8, 9], [1, 2, 3, 5, 6, 8], [1, 3, 4, 6, 7, 9], [1, 2, 4, 6, 7, 8], [2, 3, 5, 7, 8, 9], [1, 3, 4, 5, 6, 9], [2, 3, 4, 7, 8, 9], [1, 2, 4, 5, 6, 8], [1, 3, 5, 6, 7, 9], [2, 4, 5, 7, 8, 9], [1, 2, 3, 5, 6, 8], [1, 3, 4, 6, 7, 9], [1, 2, 4, 6, 7, 8], [2, 3, 5, 7, 8, 9], [1, 3, 4, 5, 6, 9], [2, 3, 4, 7, 8, 9], [1, 2, 4, 5, 6, 8], [1, 3, 5, 6, 7, 9], [2, 4, 5, 7, 8, 9], [1, 2, 3, 5, 6, 8], [1, 3, 4, 6, 7, 9], [1, 2, 4, 6, 7, 8], [2, 3, 5, 7, 8, 9], [1, 3, 4, 5, 6, 9]]

/-- The board reached from `solB3` by propagating the clue
pairs `solClues4` (checked by `solveStage4` below). -/
def solB4 : Board := [[5], [3], [4], [6], [7], [8], [9], [1], [2], [6], [7], [2], [1], [9], [5], [3], [4], [8], [1], [9], [8], [3], [4], [2], [5], [6], [7], [8], [5], [9], [7], [6], [1], [4], [2], [3], [2, 3, 4, 7], [1, 2, 4, 6], [1, 3, 6, 7], [2, 4, 5, 8, 9], [2, 3, 5, 8], [3, 4, 9], [1, 6, 7, 8], [5, 7, 8, 9], [1, 5, 6, 9], [2, 3, 4, 7], [1, 2, 4, 6], [1, 3, 6, 7], [2, 4, 5, 8, 9], [2, 3, 5, 8], [3, 4, 9], [1, 6, 7, 8], [5, 7, 8, 9], [1, 5, 6, 9], [2, 3, 4, 7, 9], [1, 2, 4, 6, 8], [1, 3, 5, 6, 7], [2, 4, 5, 8, 9], [1, 2, 3, 5, 8], [3, 4, 6, 7, 9], [1, 2, 6, 7, 8], [3, 5, 7, 8, 9], [1, 4, 5, 6, 9], [2, 3, 4, 7, 9], [1, 2, 4, 6, 8], [1, 3, 5, 6, 7], [2, 4, 5, 8, 9], [1, 2, 3, 5, 8], [3, 4, 6, 7, 9], [1, 2, 6, 7, 8], [3, 5, 7, 8, 9], [1, 4, 5, 6, 9], [2, 3, 4, 7, 9], [1, 2, 4, 6, 8], [1, 3, 5, 6, 7], [2, 4, 5, 8, 9], [1, 2, 3, 5, 8], [3, 4, 6, 7, 9], [1, 2, 6, 7, 8], [3, 5, 7, 8, 9], [1, 4, 5, 6, 9]]

/-- The board reached from `solB4` by propagating the clue
pairs `solClues5` (checked by `solveStage5` below). -/
def solB5 : Board := [[5], [3], [4], [6], [7], [8], [9], [1], [2], [6], [7], [2], [1], [9], [5], [3], [4], [8], [1], [9], [8], [3], [4], [2], [5], [6], [7], [8], [5], [9], [7], [6], [1], [4], [2], [3], [4], [2], [6], [8], [5], [3], [7], [9], [1], [3, 7], [1], [3, 7], [4, 9], [2], [4, 9], [6, 8], [5, 8], [5, 6], [2, 3, 7, 9], [4, 6, 8], [1, 3, 5, 7], [2, 4, 5, 9], [1, 3, 8], [4, 6, 7, 9], [1, 2, 6, 8], [3, 5, 7, 8], [4, 5, 6, 9], [2, 3, 7, 9], [4, 6, 8], [1, 3, 5, 7], [2, 4, 5, 9], [1, 3, 8], [4, 6, 7, 9], [1, 2, 6, 8], [3, 5, 7, 8], [4, 5, 6, 9], [2, 3, 7, 9], [4, 6, 8], [1, 3, 5, 7], [2, 4, 5, 9], [1, 3, 8], [4, 6, 7, 9], [1, 2, 6, 8], [3, 5, 7, 8], [4, 5, 6, 9]]

/-- The board reached from `solB5` by propagating the clue
pairs `solClues6` (checked by `solveStage6` below). -/
def solB6 : Board := [[5], [3], [4], [6], [7], [8], [9], [1], [2], [6], [7], [2], [1], [9], [5], [3], [4], [8], [1], [9], [8], [3], [4], [2], [5], [6], [7], [8], [5], [9], [7], [6], [1], [4], [2], [3], [4], [2], [6], [8], [5], [3], [7], [9], [1], [7], [1], [3], [9], [2], [4], [8], [5], [6], [2, 3, 9], [4, 6, 8], [1, 5, 7], [2, 4, 5], [1, 3, 8], [6, 7, 9], [1, 2, 6], [3, 7, 8], [4, 5, 9], [2, 3, 9], [4, 6, 8], [1, 5, 7], [2, 4, 5], [1, 3, 8], [6, 7, 9], [1, 2, 6], [3, 7, 8], [4, 5, 9], [2, 3, 9], [4, 6, 8], [1, 5, 7], [2, 4, 5], [1, 3, 8], [6, 7, 9], [1, 2, 6], [3, 7, 8], [4, 5, 9]]

/-- The board reached from `solB6` by propagating the clue
pairs `solClues7` (checked by `solveStage7` below). -/
def solB7 : Board := [[5], [3], [4], [6], [7], [8], [9], [1], [2], [6], [7], [2], [1], [9], [5], [3], [4], [8], [1], [9], [8], [3], [4], [2], [5], [6], [7], [8], [5], [9], [7], [6], [1], [4], [2], [3], [4], [2], [6], [8], [5], [3], [7], [9], [1], [7], [1], [3], [9], [2], [4], [8], [5], [6], [9], [6], [1], [5], [3], [7], [2], [8], [4], [2, 3], [4, 8], [5, 7], [2, 4], [1, 8], [6, 9], [1, 6], [3, 7], [5, 9], [2, 3], [4, 8], [5, 7], [2, 4], [1, 8], [6, 9], [1, 6], [3, 7], [5, 9]]

/-- The board reached from `solB7` by propagating the clue
pairs `solClues8` (checked by `solveStage8` below). -/
def solB8 : Board := [[5], [3], [4], [6], [7], [8], [9], [1], [2], [6], [7], [2], [1], [9], [5], [3], [4], [8], [1], [9], [8], [3], [4], [2], [5], [6], [7], [8], [5], [9], [7], [6], [1], [4], [2], [3], [4], [2], [6], [8], [5], [3], [7], [9], [1], [7], [1], [3], [9], [2], [4], [8], [5], [6], [9], [6], [1], [5], [3], [7], [2], [8], [4], [2], [8], [7], [4], [1], [9], [6], [3], [5], [3], [4], [5], [2], [8], [6], [1], [7], [9]]

/-- The board reached from `solB8` by propagating the clue
pairs `solClues9` (checked by `solveStage9` below). -/
def solB9 : Board := [[5], [3], [4], [6], [7], [8], [9], [1], [2], [6], [7], [2], [1], [9], [5], [3], [4], [8], [1], [9], [8], [3], [4], [2], [5], [6], [7], [8], [5], [9], [7], [6], [1], [4], [2], [3], [4], [2], [6], [8], [5], [3], [7], [9], [1], [7], [1], [3], [9], [2], [4], [8], [5], [6], [9], [6], [1], [5], [3], [7], [2], [8], [4], [2], [8], [7], [4], [1], [9], [6], [3], [5], [3], [4], [5], [2], [8], [6], [1], [7], [9]]

end CPB


namespace CPB

/-- The result board refines the input board: same length, cellwise
sublists (propagation only ever erases candidates). -/
def BLe (r b : Board) : Prop :=
  r.length = b.length ∧ ∀ t, (bcell r t).Sublist (bcell b t)

/-- Pointwise preservation of non-emptiness. -/
def NEP (r b : Board) : Prop := ∀ t, bcell b t ≠ [] → bcell r t ≠ []

/-- Engine wellformedness of a board: 81 squares, every candidate list a
sublist of the digit string (hence sorted, duplicate-free, at most 9). -/
def WB (b : Board) : Prop := b.length = 81 ∧ ∀ t, (bcell b t).Sublist digits

/-- All squares still inhabited (no contradiction recorded on the board). -/
def NEB (b : Board) : Prop := ∀ t, t < 81 → bcell b t ≠ []

/-- The number of unsolved squares, the measure of the search recursion. -/
def unsolved (b : Board) : Nat :=
  (squares.filter (fun s => 1 < (bcell b s).length)).length

/-- Lexicographic comparison used by Python's tuple `min`. -/
def lexLe (r q : Nat × Nat) : Prop := r.1 < q.1 ∨ (r.1 = q.1 ∧ r.2 ≤ q.2)

/-- The folding function of `chooseSq`. -/
def minPair (acc p : Nat × Nat) : Nat × Nat :=
  if p.1 < acc.1 ∨ (p.1 = acc.1 ∧ p.2 < acc.2) then p else acc

/-- Fuel demanded by a search call. -/
def sneed : SCall → Nat
  | .main b => 11 * unsolved b + 12
  | .loop b _ cands => 11 * unsolved b + 1 + cands.length

/-- Wellformedness of a search call: the board is reachable-shaped, and a
loop call branches on a square that indeed has several candidates. -/
def SOK : SCall → Prop
  | .main b => WB b ∧ NEB b
  | .loop b sq _ => (WB b ∧ NEB b) ∧ 1 < (bcell b sq).length

/-- A grid holding the same clue 7 twice in column 3 (rows 1 and 5). -/
def dupColGrid : Grid :=
  [[0, 0, 7, 0, 0, 0, 0, 0, 0],
   [0, 0, 0, 0, 0, 0, 0, 0, 0],
   [0, 0, 0, 0, 0, 0, 0, 0, 0],
   [0, 0, 0, 0, 0, 0, 0, 0, 0],
   [0, 0, 7, 0, 0, 0, 0, 0, 0],
   [0, 0, 0, 0, 0, 0, 0, 0, 0],
   [0, 0, 0, 0, 0, 0, 0, 0, 0],
   [0, 0, 0, 0, 0, 0, 0, 0, 0],
   [0, 0, 0, 0, 0, 0, 0, 0, 0]]

/-- The all-blank grid of canonical scenario 2. -/
def blankGrid : Grid := List.replicate 9 (List.replicate 9 0)

/-- A grid with the single clue 3 at square A7. -/
def oneClueGrid : Grid :=
  [[0, 0, 0, 0, 0, 0, 3, 0, 0],
   [0, 0, 0, 0, 0, 0, 0, 0, 0],
   [0, 0, 0, 0, 0, 0, 0, 0, 0],
   [0, 0, 0, 0, 0, 0, 0, 0, 0],
   [0, 0, 0, 0, 0, 0, 0, 0, 0],
   [0, 0, 0, 0, 0, 0, 0, 0, 0],
   [0, 0, 0, 0, 0, 0, 0, 0, 0],
   [0, 0, 0, 0, 0, 0, 0, 0, 0],
   [0, 0, 0, 0, 0, 0, 0, 0, 0]]

/-- The propagation fixed point of `oneClueGrid`. -/
def wb7 : Board :=
  match propagateGo (toPuzzle oneClueGrid) generate_board with
  | .ok b => b
  | _ => []

/-- A fresh board whose square A1 was narrowed to the candidates 1 and 2:
the digit 5 is absent from A1 while A1 is non-empty. -/
def bAbsent : Board := generate_board.set 0 [1, 2]

end CPB

section EngineLemmas

namespace CPB

theorem bcell_of_length_le {b : Board} {s : Nat} (h : b.length ≤ s) : bcell b s = [] := by
  simp [bcell, List.getD_eq_getElem?_getD, List.getElem?_eq_none h]

theorem lt_length_of_bcell_ne_nil {b : Board} {s : Nat} (h : bcell b s ≠ []) :
    s < b.length := by
  by_contra hs
  exact h (bcell_of_length_le (Nat.le_of_not_lt hs))

theorem bcell_set_self {b : Board} {s : Nat} (v : List Nat) (h : s < b.length) :
    bcell (b.set s v) s = v := by
  simp [bcell, List.getD_eq_getElem?_getD, List.getElem?_set_self h]

theorem bcell_set_ne {b : Board} {s t : Nat} (v : List Nat) (h : t ≠ s) :
    bcell (b.set s v) t = bcell b t := by
  simp [bcell, List.getD_eq_getElem?_getD, List.getElem?_set_ne (Ne.symm h)]

theorem bcell_set (b : Board) (s t : Nat) (v : List Nat) :
    bcell (b.set s v) t = if t = s ∧ s < b.length then v else bcell b t := by
  by_cases hts : t = s
  · subst hts
    by_cases hl : t < b.length
    · simp [hl, bcell_set_self v hl]
    · simp [hl, List.set_eq_of_length_le (Nat.le_of_not_lt hl)]
  · simp [hts, bcell_set_ne v hts]

theorem mem_bcell_mem {b : Board} {s : Nat} (h : bcell b s ≠ []) : bcell b s ∈ b := by
  have hs := lt_length_of_bcell_ne_nil h
  have : bcell b s = b[s] := by
    simp [bcell, List.getD_eq_getElem?_getD, List.getElem?_eq_getElem hs]
  rw [this]
  exact List.getElem_mem hs

theorem bcell_length_le_of_cells9 {b : Board} (h : Cells9 b) (s : Nat) :
    (bcell b s).length ≤ 9 := by
  by_cases hn : bcell b s = []
  · simp [hn]
  · exact h _ (mem_bcell_mem hn)

theorem count_set {b : Board} {s : Nat} (v : List Nat) (h : s < b.length) :
    count (b.set s v) + (bcell b s).length = count b + v.length := by
  induction b generalizing s with
  | nil => simp at h
  | cons hd tl ih =>
    cases s with
    | zero => simp [count, bcell]; omega
    | succ s =>
      have hs : s < tl.length := by simpa using h
      have := ih hs
      simp only [List.set_cons_succ, count, List.map_cons, List.sum_cons, bcell,
        List.getD_cons_succ] at *
      omega

theorem bcell_length_le_count (b : Board) (s : Nat) : (bcell b s).length ≤ count b := by
  by_cases hn : bcell b s = []
  · simp [hn]
  · have hmem := mem_bcell_mem hn
    have : (bcell b s).length ∈ b.map List.length := List.mem_map_of_mem _ hmem
    exact List.single_le_sum (by intro x _; exact Nat.zero_le x) _ this

theorem dedupAux_mem {x : Nat} : ∀ (l seen : List Nat),
    x ∈ dedupAux seen l ↔ x ∈ l ∧ x ∉ seen := by
  intro l
  induction l with
  | nil => intro seen; simp [dedupAux]
  | cons y ys ih =>
    intro seen
    by_cases hy : y ∈ seen
    · rw [dedupAux, if_pos hy, ih]
      constructor
      · rintro ⟨h1, h2⟩; exact ⟨List.mem_cons_of_mem _ h1, h2⟩
      · rintro ⟨h1, h2⟩
        rcases List.mem_cons.1 h1 with rfl | h1
        · exact absurd hy h2
        · exact ⟨h1, h2⟩
    · rw [dedupAux, if_neg hy]
      constructor
      · intro h
        rcases List.mem_cons.1 h with rfl | h
        · exact ⟨List.mem_cons_self _ _, hy⟩
        · rw [ih] at h
          refine ⟨List.mem_cons_of_mem _ h.1, fun hx => h.2 (List.mem_cons_of_mem _ hx)⟩
      · rintro ⟨h1, h2⟩
        rcases List.mem_cons.1 h1 with rfl | h1
        · exact List.mem_cons_self _ _
        · by_cases hxy : x = y
          · subst hxy; exact List.mem_cons_self _ _
          · refine List.mem_cons_of_mem _ ?_
            rw [ih]
            exact ⟨h1, fun hx => by
              rcases List.mem_cons.1 hx with h | h
              · exact hxy h
              · exact h2 h⟩

theorem dedupAux_length_le : ∀ (l seen : List Nat), (dedupAux seen l).length ≤ l.length := by
  intro l
  induction l with
  | nil => intro seen; simp [dedupAux]
  | cons y ys ih =>
    intro seen
    by_cases hy : y ∈ seen
    · rw [dedupAux, if_pos hy]
      exact Nat.le_succ_of_le (ih seen)
    · rw [dedupAux, if_neg hy]
      simpa using ih (y :: seen)

theorem mem_peers_of_mem_unit {u : List Nat} {x y : Nat} (hu : u ∈ unit_list)
    (hx : x ∈ u) (hy : y ∈ u) (hne : y ≠ x) : y ∈ peers x := by
  have hcu : u ∈ units x := by
    rw [units, List.mem_filter]
    refine ⟨hu, ?_⟩
    simp only [List.contains, List.elem_eq_mem, decide_eq_true_eq]
    exact hx
  have hyf : y ∈ (units x).flatten := List.mem_flatten.2 ⟨u, hcu, hy⟩
  rw [peers, List.mem_filter]
  refine ⟨(dedupAux_mem _ _).2 ⟨hyf, by simp⟩, by simpa using hne⟩

theorem unit_list_length_nine : ∀ u ∈ unit_list, u.length = 9 := by decide

theorem peers_length_le (s : Nat) : (peers s).length ≤ 243 := by
  have h1 : (units s).length ≤ 27 := by
    have := List.length_filter_le (fun u => u.contains s) unit_list
    simpa [units] using this
  have h2 : ((units s).flatten).length ≤ 243 := by
    rw [List.length_flatten]
    have hsub : units s ⊆ unit_list := (List.filter_sublist _).subset
    calc ((units s).map List.length).sum
        ≤ ((units s).map (fun _ => 9)).sum := by
          apply List.sum_le_sum
          intro u hu
          exact Nat.le_of_eq (unit_list_length_nine u (hsub hu))
      _ = 9 * (units s).length := by
          generalize units s = l
          induction l with
          | nil => simp
          | cons hd tl ih =>
            simp only [List.map_cons, List.sum_cons, ih, List.length_cons]
            ring
      _ ≤ 9 * 27 := Nat.mul_le_mul_left 9 h1
  calc (peers s).length ≤ (dedupAux [] (units s).flatten).length :=
        List.length_filter_le _ _
    _ ≤ ((units s).flatten).length := dedupAux_length_le _ _
    _ ≤ 243 := h2

theorem generate_board_length : generate_board.length = 81 := by
  simp [generate_board]

theorem bcell_generate_board {s : Nat} (h : s < 81) : bcell generate_board s = digits := by
  rw [generate_board, bcell, List.getD_eq_getElem?_getD, List.getElem?_replicate]
  simp [h]

theorem bcell_generate_board_sublist (s : Nat) : (bcell generate_board s).Sublist digits := by
  by_cases h : s < 81
  · rw [bcell_generate_board h]
  · rw [bcell_of_length_le (by simpa [generate_board_length] using Nat.le_of_not_lt h)]
    exact List.nil_sublist _

end CPB

namespace CPB


theorem BLe_refl (b : Board) : BLe b b := ⟨rfl, fun _ => List.Sublist.refl _⟩

theorem BLe_trans {a b c : Board} (h1 : BLe a b) (h2 : BLe b c) : BLe a c :=
  ⟨h1.1.trans h2.1, fun t => (h1.2 t).trans (h2.2 t)⟩

theorem bcell_set_filter_sublist (b : Board) (s : Nat) (p : Nat → Bool) :
    BLe (b.set s ((bcell b s).filter p)) b := by
  refine ⟨List.length_set .., fun t => ?_⟩
  rw [bcell_set]
  split
  · rename_i h
    rcases h with ⟨rfl, _⟩
    exact List.filter_sublist _
  · exact List.Sublist.refl _

theorem step_ok_mono : ∀ f b c r, step f b c = .ok r → BLe r b := by
  intro f
  induction f with
  | zero =>
    intro b c r h
    simp [step] at h
  | succ f ih =>
    intro b c r h
    cases c with
    | rv s v =>
      simp only [step] at h
      by_cases hv : v ∈ bcell b s
      · rw [if_pos hv] at h
        by_cases h0 : ((bcell b s).filter (fun x => x ≠ v)).length = 0
        · rw [if_pos h0] at h
          exact absurd h (by simp)
        · rw [if_neg h0] at h
          have hb1 : BLe (b.set s ((bcell b s).filter (fun x => x ≠ v))) b :=
            bcell_set_filter_sublist b s _
          cases hmid : (if ((bcell b s).filter (fun x => x ≠ v)).length = 1 then
              step f (b.set s ((bcell b s).filter (fun x => x ≠ v)))
                (.rp (peers s) (((bcell b s).filter (fun x => x ≠ v)).headD 0))
            else .ok (b.set s ((bcell b s).filter (fun x => x ≠ v)))) with
          | ok b2 =>
            rw [hmid] at h
            have hm : BLe b2 b := by
              split at hmid
              · exact BLe_trans (ih _ _ _ hmid) hb1
              · cases hmid
                exact hb1
            exact BLe_trans (ih _ _ _ h) hm
          | fail => rw [hmid] at h; exact absurd h (by simp)
          | out => rw [hmid] at h; exact absurd h (by simp)
      · rw [if_neg hv] at h
        cases h
        exact BLe_refl _
    | rp ps v =>
      cases ps with
      | nil =>
        simp only [step] at h
        cases h
        exact BLe_refl _
      | cons p rest =>
        simp only [step] at h
        cases hrv : step f b (.rv p v) with
        | ok b2 =>
          rw [hrv] at h
          exact BLe_trans (ih _ _ _ h) (ih _ _ _ hrv)
        | fail => rw [hrv] at h; exact absurd h (by simp)
        | out => rw [hrv] at h; exact absurd h (by simp)
    | hu us v =>
      cases us with
      | nil =>
        simp only [step] at h
        cases h
        exact BLe_refl _
      | cons u rest =>
        simp only [step] at h
        by_cases h0 : (u.filter (fun t => (bcell b t).contains v)).length = 0
        · rw [if_pos h0] at h
          exact absurd h (by simp)
        · rw [if_neg h0] at h
          by_cases h1 : (u.filter (fun t => (bcell b t).contains v)).length = 1 ∧
              1 < (bcell b ((u.filter (fun t => (bcell b t).contains v)).headD 0)).length
          · rw [if_pos h1] at h
            cases hav : step f b (.av ((u.filter (fun t => (bcell b t).contains v)).headD 0) v) with
            | ok b2 =>
              rw [hav] at h
              exact BLe_trans (ih _ _ _ h) (ih _ _ _ hav)
            | fail => rw [hav] at h; exact absurd h (by simp)
            | out => rw [hav] at h; exact absurd h (by simp)
          · rw [if_neg h1] at h
            exact ih _ _ _ h
    | av s v =>
      simp only [step] at h
      exact ih _ _ _ h
    | re s vs =>
      cases vs with
      | nil =>
        simp only [step] at h
        cases h
        exact BLe_refl _
      | cons w rest =>
        simp only [step] at h
        cases hrv : step f b (.rv s w) with
        | ok b2 =>
          rw [hrv] at h
          exact BLe_trans (ih _ _ _ h) (ih _ _ _ hrv)
        | fail => rw [hrv] at h; exact absurd h (by simp)
        | out => rw [hrv] at h; exact absurd h (by simp)

end CPB

namespace CPB


theorem NEP_refl (b : Board) : NEP b b := fun _ h => h

theorem NEP_trans {a b c : Board} (h1 : NEP a b) (h2 : NEP b c) : NEP a c :=
  fun t h => h1 t (h2 t h)

theorem step_ok_nonempty : ∀ f b c r, step f b c = .ok r → NEP r b := by
  intro f
  induction f with
  | zero =>
    intro b c r h
    simp [step] at h
  | succ f ih =>
    intro b c r h
    cases c with
    | rv s v =>
      simp only [step] at h
      by_cases hv : v ∈ bcell b s
      · rw [if_pos hv] at h
        by_cases h0 : ((bcell b s).filter (fun x => x ≠ v)).length = 0
        · rw [if_pos h0] at h
          exact absurd h (by simp)
        · rw [if_neg h0] at h
          have hb1 : NEP (b.set s ((bcell b s).filter (fun x => x ≠ v))) b := by
            intro t ht
            rw [bcell_set]
            split
            · intro hc
              exact h0 (by rw [hc]; rfl)
            · exact ht
          cases hmid : (if ((bcell b s).filter (fun x => x ≠ v)).length = 1 then
              step f (b.set s ((bcell b s).filter (fun x => x ≠ v)))
                (.rp (peers s) (((bcell b s).filter (fun x => x ≠ v)).headD 0))
            else .ok (b.set s ((bcell b s).filter (fun x => x ≠ v)))) with
          | ok b2 =>
            rw [hmid] at h
            have hm : NEP b2 b := by
              split at hmid
              · exact NEP_trans (ih _ _ _ hmid) hb1
              · cases hmid
                exact hb1
            exact NEP_trans (ih _ _ _ h) hm
          | fail => rw [hmid] at h; exact absurd h (by simp)
          | out => rw [hmid] at h; exact absurd h (by simp)
      · rw [if_neg hv] at h
        cases h
        exact NEP_refl _
    | rp ps v =>
      cases ps with
      | nil =>
        simp only [step] at h
        cases h
        exact NEP_refl _
      | cons p rest =>
        simp only [step] at h
        cases hrv : step f b (.rv p v) with
        | ok b2 =>
          rw [hrv] at h
          exact NEP_trans (ih _ _ _ h) (ih _ _ _ hrv)
        | fail => rw [hrv] at h; exact absurd h (by simp)
        | out => rw [hrv] at h; exact absurd h (by simp)
    | hu us v =>
      cases us with
      | nil =>
        simp only [step] at h
        cases h
        exact NEP_refl _
      | cons u rest =>
        simp only [step] at h
        by_cases h0 : (u.filter (fun t => (bcell b t).contains v)).length = 0
        · rw [if_pos h0] at h
          exact absurd h (by simp)
        · rw [if_neg h0] at h
          by_cases h1 : (u.filter (fun t => (bcell b t).contains v)).length = 1 ∧
              1 < (bcell b ((u.filter (fun t => (bcell b t).contains v)).headD 0)).length
          · rw [if_pos h1] at h
            cases hav : step f b
                (.av ((u.filter (fun t => (bcell b t).contains v)).headD 0) v) with
            | ok b2 =>
              rw [hav] at h
              exact NEP_trans (ih _ _ _ h) (ih _ _ _ hav)
            | fail => rw [hav] at h; exact absurd h (by simp)
            | out => rw [hav] at h; exact absurd h (by simp)
          · rw [if_neg h1] at h
            exact ih _ _ _ h
    | av s v =>
      simp only [step] at h
      exact ih _ _ _ h
    | re s vs =>
      cases vs with
      | nil =>
        simp only [step] at h
        cases h
        exact NEP_refl _
      | cons w rest =>
        simp only [step] at h
        cases hrv : step f b (.rv s w) with
        | ok b2 =>
          rw [hrv] at h
          exact NEP_trans (ih _ _ _ h) (ih _ _ _ hrv)
        | fail => rw [hrv] at h; exact absurd h (by simp)
        | out => rw [hrv] at h; exact absurd h (by simp)

theorem step_rv_ok_not_mem {f : Nat} {b : Board} {s v : Nat} {r : Board}
    (h : step f b (.rv s v) = .ok r) : v ∉ bcell r s := by
  cases f with
  | zero => simp [step] at h
  | succ f =>
    simp only [step] at h
    by_cases hv : v ∈ bcell b s
    · rw [if_pos hv] at h
      by_cases h0 : ((bcell b s).filter (fun x => x ≠ v)).length = 0
      · rw [if_pos h0] at h
        exact absurd h (by simp)
      · rw [if_neg h0] at h
        have hlt : s < b.length := lt_length_of_bcell_ne_nil (fun hc => by simp [hc] at hv)
        have hb1 : bcell (b.set s ((bcell b s).filter (fun x => x ≠ v))) s =
            (bcell b s).filter (fun x => x ≠ v) := bcell_set_self _ hlt
        have hnm : v ∉ (bcell b s).filter (fun x => x ≠ v) := by
          simp [List.mem_filter]
        cases hmid : (if ((bcell b s).filter (fun x => x ≠ v)).length = 1 then
            step f (b.set s ((bcell b s).filter (fun x => x ≠ v)))
              (.rp (peers s) (((bcell b s).filter (fun x => x ≠ v)).headD 0))
          else .ok (b.set s ((bcell b s).filter (fun x => x ≠ v)))) with
        | ok b2 =>
          rw [hmid] at h
          have hm2 : (bcell b2 s).Sublist ((bcell b s).filter (fun x => x ≠ v)) := by
            split at hmid
            · have := (step_ok_mono _ _ _ _ hmid).2 s
              rwa [hb1] at this
            · cases hmid
              rw [hb1]
          have hr2 : (bcell r s).Sublist (bcell b2 s) := (step_ok_mono _ _ _ _ h).2 s
          intro hvr
          exact hnm (hm2.subset (hr2.subset hvr))
        | fail => rw [hmid] at h; exact absurd h (by simp)
        | out => rw [hmid] at h; exact absurd h (by simp)
    · rw [if_neg hv] at h
      cases h
      exact hv

theorem step_re_ok_not_mem : ∀ f b s vs r, step f b (.re s vs) = .ok r →
    ∀ w ∈ vs, w ∉ bcell r s := by
  intro f
  induction f with
  | zero =>
    intro b s vs r h
    simp [step] at h
  | succ f ih =>
    intro b s vs r h w hw
    cases vs with
    | nil => simp at hw
    | cons w0 rest =>
      simp only [step] at h
      cases hrv : step f b (.rv s w0) with
      | ok b2 =>
        rw [hrv] at h
        rcases List.mem_cons.1 hw with rfl | hw
        · have h1 : w ∉ bcell b2 s := step_rv_ok_not_mem hrv
          have h2 : (bcell r s).Sublist (bcell b2 s) := (step_ok_mono _ _ _ _ h).2 s
          exact fun hc => h1 (h2.subset hc)
        · exact ih _ _ _ _ h w hw
      | fail => rw [hrv] at h; exact absurd h (by simp)
      | out => rw [hrv] at h; exact absurd h (by simp)

theorem step_av_ok_cell {f : Nat} {b : Board} {s v : Nat} {r : Board}
    (h : step f b (.av s v) = .ok r) : ∀ x ∈ bcell r s, x = v := by
  cases f with
  | zero => simp [step] at h
  | succ f =>
    simp only [step] at h
    intro x hx
    by_cases hxv : x = v
    · exact hxv
    · exfalso
      have hxb : x ∈ bcell b s := ((step_ok_mono _ _ _ _ h).2 s).subset hx
      have hxf : x ∈ (bcell b s).filter (fun y => y ≠ v) := by
        simp [List.mem_filter, hxb, hxv]
      exact step_re_ok_not_mem _ _ _ _ _ h x hxf hx

theorem eq_single_of_all_eq {l : List Nat} {v : Nat} (hne : l ≠ []) (hnd : l.Nodup)
    (hall : ∀ x ∈ l, x = v) : l = [v] := by
  cases l with
  | nil => exact absurd rfl hne
  | cons x tl =>
    have hxv : x = v := hall x (List.mem_cons_self _ _)
    subst hxv
    cases tl with
    | nil => rfl
    | cons y ttl =>
      exfalso
      have hy : y = x := hall y (List.mem_cons_of_mem _ (List.mem_cons_self _ _))
      subst hy
      simp at hnd

theorem step_av_ok_singleton {f : Nat} {b : Board} {s v : Nat} {r : Board}
    (hnd : (bcell b s).Nodup) (hne : bcell b s ≠ [])
    (h : step f b (.av s v) = .ok r) : bcell r s = [v] := by
  have h1 : bcell r s ≠ [] := step_ok_nonempty _ _ _ _ h s hne
  have h2 : (bcell r s).Nodup := ((step_ok_mono _ _ _ _ h).2 s).nodup hnd
  exact eq_single_of_all_eq h1 h2 (step_av_ok_cell h)

theorem step_av_ok_mem {f : Nat} {b : Board} {s v : Nat} {r : Board}
    (hnd : (bcell b s).Nodup) (hne : bcell b s ≠ [])
    (h : step f b (.av s v) = .ok r) : v ∈ bcell b s := by
  have := step_av_ok_singleton hnd hne h
  have hsub : (bcell r s).Sublist (bcell b s) := (step_ok_mono _ _ _ _ h).2 s
  rw [this] at hsub
  exact hsub.subset (List.mem_cons_self _ _)

end CPB

namespace CPB

theorem Consistent.mono {b : Board} {E1 E2 : Nat → Nat → Nat → Prop}
    (himp : ∀ x y d, E1 x y d → E2 x y d) (h : Consistent b E1) : Consistent b E2 :=
  fun x y d h1 h2 h3 => himp x y d (h x y d h1 h2 h3)

theorem step_ok_consistent : ∀ f b c E r, PreC c b E → step f b c = .ok r →
    Consistent r E := by
  intro f
  induction f with
  | zero =>
    intro b c E r _ h
    simp [step] at h
  | succ f ih =>
    intro b c E r hpre h
    cases c with
    | rv s v =>
      simp only [PreC] at hpre
      simp only [step] at h
      by_cases hv : v ∈ bcell b s
      · rw [if_pos hv] at h
        by_cases h0 : ((bcell b s).filter (fun x => x ≠ v)).length = 0
        · rw [if_pos h0] at h
          exact absurd h (by simp)
        · rw [if_neg h0] at h
          have hlt : s < b.length := lt_length_of_bcell_ne_nil (fun hc => by simp [hc] at hv)
          have hb1c : bcell (b.set s ((bcell b s).filter (fun x => x ≠ v))) s =
              (bcell b s).filter (fun x => x ≠ v) := bcell_set_self _ hlt
          have hb1s : ∀ t, (bcell (b.set s ((bcell b s).filter (fun x => x ≠ v))) t).Sublist
              (bcell b t) := (bcell_set_filter_sublist b s _).2
          have hb1ne : ∀ t, t ≠ s →
              bcell (b.set s ((bcell b s).filter (fun x => x ≠ v))) t = bcell b t :=
            fun t ht => bcell_set_ne _ ht
          cases hmid : (if ((bcell b s).filter (fun x => x ≠ v)).length = 1 then
              step f (b.set s ((bcell b s).filter (fun x => x ≠ v)))
                (.rp (peers s) (((bcell b s).filter (fun x => x ≠ v)).headD 0))
            else .ok (b.set s ((bcell b s).filter (fun x => x ≠ v)))) with
          | ok b2 =>
            rw [hmid] at h
            have hm : Consistent b2 E := by
              by_cases h1 : ((bcell b s).filter (fun x => x ≠ v)).length = 1
              · rw [if_pos h1] at hmid
                rcases List.length_eq_one.1 h1 with ⟨fv, hfv⟩
                have hhead : ((bcell b s).filter (fun x => x ≠ v)).headD 0 = fv := by
                  rw [hfv]; rfl
                refine ih _ _ _ _ ?_ hmid
                simp only [PreC, hhead]
                intro x y d hx hy hd
                by_cases hxs : x = s
                · subst hxs
                  rw [hb1c, hfv] at hx
                  right
                  exact ⟨by injection hx with h1 _; exact h1.symm ▸ rfl, hy⟩
                · rw [hb1ne x hxs] at hx
                  left
                  exact hpre x y d hx hy ((hb1s y).subset hd)
              · rw [if_neg h1] at hmid
                cases hmid
                intro x y d hx hy hd
                by_cases hxs : x = s
                · subst hxs
                  rw [hb1c] at hx
                  exact absurd (by rw [hx]; rfl) (fun hc => h1 hc)
                · rw [hb1ne x hxs] at hx
                  exact hpre x y d hx hy ((hb1s y).subset hd)
            exact ih _ _ _ _ (by simpa [PreC] using hm) h
          | fail => rw [hmid] at h; exact absurd h (by simp)
          | out => rw [hmid] at h; exact absurd h (by simp)
      · rw [if_neg hv] at h
        cases h
        exact hpre
    | rp ps v =>
      simp only [PreC] at hpre
      cases ps with
      | nil =>
        simp only [step] at h
        cases h
        exact hpre.mono (fun x y d hx => by
          rcases hx with hx | hx
          · exact hx
          · simp at hx)
      | cons p rest =>
        simp only [step] at h
        cases hrv : step f b (.rv p v) with
        | ok b2 =>
          rw [hrv] at h
          have hc2 : Consistent b2
              (fun x y d => E x y d ∨ (d = v ∧ y ∈ p :: rest)) :=
            ih _ _ _ _ (by simpa [PreC] using hpre) hrv
          have hc3 : Consistent b2 (fun x y d => E x y d ∨ (d = v ∧ y ∈ rest)) := by
            intro x y d hx hy hd
            rcases hc2 x y d hx hy hd with he | ⟨rfl, hyp⟩
            · exact Or.inl he
            · rcases List.mem_cons.1 hyp with rfl | hyp
              · exact absurd hd (step_rv_ok_not_mem hrv)
              · exact Or.inr ⟨rfl, hyp⟩
          exact ih _ _ _ _ (by simpa [PreC] using hc3) h
        | fail => rw [hrv] at h; exact absurd h (by simp)
        | out => rw [hrv] at h; exact absurd h (by simp)
    | hu us v =>
      simp only [PreC] at hpre
      cases us with
      | nil =>
        simp only [step] at h
        cases h
        exact hpre
      | cons u rest =>
        simp only [step] at h
        by_cases h0 : (u.filter (fun t => (bcell b t).contains v)).length = 0
        · rw [if_pos h0] at h
          exact absurd h (by simp)
        · rw [if_neg h0] at h
          by_cases h1 : (u.filter (fun t => (bcell b t).contains v)).length = 1 ∧
              1 < (bcell b ((u.filter (fun t => (bcell b t).contains v)).headD 0)).length
          · rw [if_pos h1] at h
            cases hav : step f b
                (.av ((u.filter (fun t => (bcell b t).contains v)).headD 0) v) with
            | ok b2 =>
              rw [hav] at h
              have : Consistent b2 E := ih _ _ _ _ (by simpa [PreC] using hpre) hav
              exact ih _ _ _ _ (by simpa [PreC] using this) h
            | fail => rw [hav] at h; exact absurd h (by simp)
            | out => rw [hav] at h; exact absurd h (by simp)
          · rw [if_neg h1] at h
            exact ih _ _ _ _ (by simpa [PreC] using hpre) h
    | av s v =>
      simp only [PreC] at hpre
      simp only [step] at h
      exact ih _ _ _ _ (by simpa [PreC] using hpre) h
    | re s vs =>
      simp only [PreC] at hpre
      cases vs with
      | nil =>
        simp only [step] at h
        cases h
        exact hpre
      | cons w rest =>
        simp only [step] at h
        cases hrv : step f b (.rv s w) with
        | ok b2 =>
          rw [hrv] at h
          have : Consistent b2 E := ih _ _ _ _ (by simpa [PreC] using hpre) hrv
          exact ih _ _ _ _ (by simpa [PreC] using this) h
        | fail => rw [hrv] at h; exact absurd h (by simp)
        | out => rw [hrv] at h; exact absurd h (by simp)

end CPB

namespace CPB

theorem count_le_of_BLe : ∀ {r b : Board}, r.length = b.length →
    (∀ t, (bcell r t).Sublist (bcell b t)) → count r ≤ count b := by
  intro r b
  induction b generalizing r with
  | nil =>
    intro hl _
    rw [List.length_nil, List.length_eq_zero] at hl
    subst hl
    exact Nat.le_refl _
  | cons hd tl ih =>
    intro hl hs
    cases r with
    | nil => simp at hl
    | cons rh rt =>
      have h0 : rh.Sublist hd := hs 0
      have htl : ∀ t, (bcell rt t).Sublist (bcell tl t) := fun t => hs (t + 1)
      have hltl : rt.length = tl.length := by simpa using hl
      have := ih hltl htl
      simp only [count, List.map_cons, List.sum_cons]
      exact Nat.add_le_add h0.length_le this

theorem count_le_of_step_ok {f : Nat} {b : Board} {c : Call} {r : Board}
    (h : step f b c = .ok r) : count r ≤ count b := by
  have := step_ok_mono _ _ _ _ h
  exact count_le_of_BLe this.1 this.2

theorem cells9_of_BLe {r b : Board} (hle : BLe r b) (h9 : Cells9 b) : Cells9 r := by
  intro l hl
  rcases List.getElem_of_mem hl with ⟨i, hi, rfl⟩
  have hb : bcell r i = r[i] := by
    simp [bcell, List.getD_eq_getElem?_getD, List.getElem?_eq_getElem hi]
  rw [← hb]
  exact Nat.le_trans (hle.2 i).length_le (bcell_length_le_of_cells9 h9 i)

theorem cells9_of_step_ok {f : Nat} {b : Board} {c : Call} {r : Board}
    (h : step f b c = .ok r) (h9 : Cells9 b) : Cells9 r :=
  cells9_of_BLe (step_ok_mono _ _ _ _ h) h9

theorem length_filter_ne_lt {l : List Nat} {v : Nat} (hv : v ∈ l) :
    (l.filter (fun x => x ≠ v)).length < l.length := by
  rcases Nat.lt_or_ge (l.filter (fun x => x ≠ v)).length l.length with h | h
  · exact h
  · exfalso
    have hle : (l.filter (fun x => x ≠ v)).Sublist l := List.filter_sublist _
    have heq : l.filter (fun x => x ≠ v) = l :=
      hle.eq_of_length_le h
    have : v ∈ l.filter (fun x => x ≠ v) := heq.symm ▸ hv
    simp [List.mem_filter] at this

theorem units_length_le (s : Nat) : (units s).length ≤ 27 := by
  have := List.length_filter_le (fun u => u.contains s) unit_list
  simpa [units] using this

theorem step_ne_out : ∀ f b c, Cells9 b → need b c ≤ f → step f b c ≠ .out := by
  intro f
  induction f with
  | zero =>
    intro b c h9 hn
    cases c <;> simp [need] at hn
  | succ f ih =>
    intro b c h9 hn
    cases c with
    | rv s v =>
      simp only [need] at hn
      simp only [step]
      by_cases hv : v ∈ bcell b s
      · rw [if_pos hv]
        by_cases h0 : ((bcell b s).filter (fun x => x ≠ v)).length = 0
        · rw [if_pos h0]
          simp
        · rw [if_neg h0]
          have hlt : s < b.length := lt_length_of_bcell_ne_nil (fun hc => by simp [hc] at hv)
          have hble : BLe (b.set s ((bcell b s).filter (fun x => x ≠ v))) b :=
            bcell_set_filter_sublist b s _
          have h9b1 : Cells9 (b.set s ((bcell b s).filter (fun x => x ≠ v))) :=
            cells9_of_BLe hble h9
          have hcnt : count (b.set s ((bcell b s).filter (fun x => x ≠ v))) + 1 ≤ count b := by
            have hset := count_set ((bcell b s).filter (fun x => x ≠ v)) hlt
            have hflt := length_filter_ne_lt hv
            omega
          cases hmid : (if ((bcell b s).filter (fun x => x ≠ v)).length = 1 then
              step f (b.set s ((bcell b s).filter (fun x => x ≠ v)))
                (.rp (peers s) (((bcell b s).filter (fun x => x ≠ v)).headD 0))
            else .ok (b.set s ((bcell b s).filter (fun x => x ≠ v)))) with
          | ok b2 =>
            simp only [hmid]
            have h9b2 : Cells9 b2 := by
              split at hmid
              · exact cells9_of_step_ok hmid h9b1
              · cases hmid; exact h9b1
            have hc2 : count b2 + 1 ≤ count b := by
              split at hmid
              · have := count_le_of_step_ok hmid
                omega
              · cases hmid
                exact hcnt
            have hneed : need b2 (.hu (units s) v) ≤ f := by
              simp only [need]
              have hu27 := units_length_le s
              omega
            exact ih b2 _ h9b2 hneed
          | fail => simp [hmid]
          | out =>
            exfalso
            split at hmid
            · refine ih _ _ h9b1 ?_ hmid
              simp only [need]
              have hp243 := peers_length_le s
              omega
            · cases hmid
      · rw [if_neg hv]
        simp
    | rp ps v =>
      simp only [need] at hn
      cases ps with
      | nil => simp [step]
      | cons p rest =>
        simp only [step]
        cases hrv : step f b (.rv p v) with
        | ok b2 =>
          have h9b2 : Cells9 b2 := cells9_of_step_ok hrv h9
          have hc2 : count b2 ≤ count b := count_le_of_step_ok hrv
          refine ih b2 _ h9b2 ?_
          simp only [need]
          simp only [List.length_cons] at hn
          omega
        | fail => simp
        | out =>
          exfalso
          refine ih _ _ h9 ?_ hrv
          simp only [need]
          simp only [List.length_cons] at hn
          omega
    | hu us v =>
      simp only [need] at hn
      cases us with
      | nil => simp [step]
      | cons u rest =>
        simp only [step]
        by_cases h0 : (u.filter (fun t => (bcell b t).contains v)).length = 0
        · rw [if_pos h0]
          simp
        · rw [if_neg h0]
          by_cases h1 : (u.filter (fun t => (bcell b t).contains v)).length = 1 ∧
              1 < (bcell b ((u.filter (fun t => (bcell b t).contains v)).headD 0)).length
          · rw [if_pos h1]
            cases hav : step f b
                (.av ((u.filter (fun t => (bcell b t).contains v)).headD 0) v) with
            | ok b2 =>
              have h9b2 : Cells9 b2 := cells9_of_step_ok hav h9
              have hc2 : count b2 ≤ count b := count_le_of_step_ok hav
              refine ih b2 _ h9b2 ?_
              simp only [need]
              simp only [List.length_cons] at hn
              omega
            | fail => simp
            | out =>
              exfalso
              refine ih _ _ h9 ?_ hav
              simp only [need]
              simp only [List.length_cons] at hn
              omega
          · rw [if_neg h1]
            refine ih b _ h9 ?_
            simp only [need]
            simp only [List.length_cons] at hn
            omega
    | av s v =>
      simp only [need] at hn
      simp only [step]
      refine ih b _ h9 ?_
      simp only [need]
      have hws : ((bcell b s).filter (fun x => x ≠ v)).length ≤ 9 := by
        have h1 := List.length_filter_le (fun x => x ≠ v) (bcell b s)
        have h2 := bcell_length_le_of_cells9 h9 s
        omega
      omega
    | re s vs =>
      simp only [need] at hn
      cases vs with
      | nil => simp [step]
      | cons w rest =>
        simp only [step]
        cases hrv : step f b (.rv s w) with
        | ok b2 =>
          have h9b2 : Cells9 b2 := cells9_of_step_ok hrv h9
          have hc2 : count b2 ≤ count b := count_le_of_step_ok hrv
          refine ih b2 _ h9b2 ?_
          simp only [need]
          simp only [List.length_cons] at hn
          omega
        | fail => simp
        | out =>
          exfalso
          refine ih _ _ h9 ?_ hrv
          simp only [need]
          simp only [List.length_cons] at hn
          omega

end CPB

namespace CPB



theorem WB.of_BLe {r b : Board} (hle : BLe r b) (h : WB b) : WB r :=
  ⟨hle.1.trans h.1, fun t => (hle.2 t).trans (h.2 t)⟩

theorem NEB.of_NEP {r b : Board} (hne : NEP r b) (h : NEB b) : NEB r :=
  fun t ht => hne t (h t ht)

theorem WB.cells9 {b : Board} (h : WB b) : Cells9 b := by
  intro l hl
  rcases List.getElem_of_mem hl with ⟨i, hi, rfl⟩
  have hb : bcell b i = b[i] := by
    simp [bcell, List.getD_eq_getElem?_getD, List.getElem?_eq_getElem hi]
  rw [← hb]
  exact (h.2 i).length_le

theorem digits_nodup : digits.Nodup := by decide

theorem WB.nodup {b : Board} (h : WB b) (t : Nat) : (bcell b t).Nodup :=
  (h.2 t).nodup digits_nodup

theorem WB.count_le {b : Board} (h : WB b) : count b ≤ 729 := by
  have h9 : ∀ x ∈ b.map List.length, x ≤ 9 := by
    intro x hx
    rcases List.mem_map.1 hx with ⟨l, hl, rfl⟩
    exact h.cells9 l hl
  have hlen : (b.map List.length).length = 81 := by simpa using h.1
  calc count b ≤ 9 * (b.map List.length).length := by
        rw [count]
        generalize hxs : b.map List.length = xs
        rw [hxs] at h9
        clear hxs hlen
        induction xs with
        | nil => simp
        | cons hd tl ih =>
          simp only [List.sum_cons, List.length_cons]
          have hhd := h9 hd (List.mem_cons_self _ _)
          have := ih (fun x hx => h9 x (List.mem_cons_of_mem _ hx))
          omega
    _ = 729 := by rw [hlen]

theorem WB_generate_board : WB generate_board :=
  ⟨generate_board_length, bcell_generate_board_sublist⟩

theorem NEB_generate_board : NEB generate_board := by
  intro t ht
  rw [bcell_generate_board ht]
  simp [digits]

theorem assign_value_ne_out {b : Board} (h : WB b) (s v : Nat) :
    assign_value b s v ≠ .out := by
  refine step_ne_out _ _ _ h.cells9 ?_
  simp only [need, FUEL]
  have := h.count_le
  omega

theorem remove_value_ne_out {b : Board} (h : WB b) (s v : Nat) :
    remove_value b s v ≠ .out := by
  refine step_ne_out _ _ _ h.cells9 ?_
  simp only [need, FUEL]
  have := h.count_le
  omega


theorem allSolved_iff (b : Board) :
    allSolved b = true ↔ ∀ s, s < 81 → (bcell b s).length = 1 := by
  simp [allSolved, squares, List.all_eq_true, List.mem_range]

theorem length_filter_mono {l : List Nat} {p q : Nat → Bool}
    (hmono : ∀ x ∈ l, p x = true → q x = true) :
    (l.filter p).length ≤ (l.filter q).length := by
  induction l with
  | nil => simp
  | cons hd tl ih =>
    have ihtl := ih (fun x hx => hmono x (List.mem_cons_of_mem _ hx))
    rw [List.filter_cons, List.filter_cons]
    cases hp : p hd with
    | true =>
      rw [hmono hd (List.mem_cons_self _ _) hp]
      simpa using ihtl
    | false =>
      cases hq : q hd with
      | true => simp only [if_true]; exact Nat.le_succ_of_le ihtl
      | false => simpa using ihtl

theorem length_filter_lt_of_strict {l : List Nat} {p q : Nat → Bool}
    (hmono : ∀ x ∈ l, p x = true → q x = true) {x0 : Nat} (hx0 : x0 ∈ l)
    (hq : q x0 = true) (hp : p x0 = false) :
    (l.filter p).length < (l.filter q).length := by
  induction l with
  | nil => simp at hx0
  | cons hd tl ih =>
    have hmtl : ∀ x ∈ tl, p x = true → q x = true :=
      fun x hx => hmono x (List.mem_cons_of_mem _ hx)
    rcases List.mem_cons.1 hx0 with rfl | hx0
    · rw [List.filter_cons, List.filter_cons, hq, hp]
      simp only [if_true]
      exact Nat.lt_succ_of_le (length_filter_mono hmtl)
    · have ihtl := ih hmtl hx0
      rw [List.filter_cons, List.filter_cons]
      cases hphd : p hd with
      | true =>
        rw [hmono hd (List.mem_cons_self _ _) hphd]
        simpa using ihtl
      | false =>
        cases hqhd : q hd with
        | true =>
          simp only [if_true]
          exact Nat.lt_succ_of_lt ihtl
        | false => simpa using ihtl


theorem lexLe_refl (r : Nat × Nat) : lexLe r r := Or.inr ⟨rfl, Nat.le_refl _⟩

theorem lexLe_trans {a b c : Nat × Nat} (h1 : lexLe a b) (h2 : lexLe b c) : lexLe a c := by
  rcases h1 with h1 | ⟨h1, h1b⟩ <;> rcases h2 with h2 | ⟨h2, h2b⟩
  · exact Or.inl (h1.trans h2)
  · exact Or.inl (h2 ▸ h1)
  · exact Or.inl (h1 ▸ h2)
  · exact Or.inr ⟨h1.trans h2, h1b.trans h2b⟩


theorem minPair_cases (acc p : Nat × Nat) : minPair acc p = p ∨ minPair acc p = acc := by
  rw [minPair]
  split
  · exact Or.inl rfl
  · exact Or.inr rfl

theorem minPair_le_acc (acc p : Nat × Nat) : lexLe (minPair acc p) acc := by
  rw [minPair]
  split
  · rename_i h
    rcases h with h | ⟨h, hb⟩
    · exact Or.inl h
    · exact Or.inr ⟨h, Nat.le_of_lt hb⟩
  · exact lexLe_refl _

theorem minPair_le_arg (acc p : Nat × Nat) : lexLe (minPair acc p) p := by
  rw [minPair]
  split
  · exact lexLe_refl _
  · rename_i h
    push_neg at h
    rcases Nat.lt_or_ge acc.1 p.1 with h1 | h1
    · exact Or.inl h1
    · have hfst : acc.1 = p.1 := Nat.le_antisymm h.1 h1
      exact Or.inr ⟨hfst, h.2 hfst.symm⟩

theorem foldl_minPair_mem : ∀ (l : List (Nat × Nat)) (acc : Nat × Nat),
    l.foldl minPair acc = acc ∨ l.foldl minPair acc ∈ l := by
  intro l
  induction l with
  | nil => intro acc; exact Or.inl rfl
  | cons p tl ih =>
    intro acc
    rcases ih (minPair acc p) with h | h
    · rcases minPair_cases acc p with h2 | h2
      · refine Or.inr ?_
        rw [List.foldl_cons, h, h2]
        exact List.mem_cons_self _ _
      · refine Or.inl ?_
        rw [List.foldl_cons, h, h2]
    · refine Or.inr (List.mem_cons_of_mem _ ?_)
      rw [List.foldl_cons]
      exact h

theorem foldl_minPair_le_acc : ∀ (l : List (Nat × Nat)) (acc : Nat × Nat),
    lexLe (l.foldl minPair acc) acc := by
  intro l
  induction l with
  | nil => intro acc; exact lexLe_refl _
  | cons p tl ih =>
    intro acc
    exact lexLe_trans (ih (minPair acc p)) (minPair_le_acc acc p)

theorem foldl_minPair_le_mem : ∀ (l : List (Nat × Nat)) (acc : Nat × Nat)
    (q : Nat × Nat), q ∈ l → lexLe (l.foldl minPair acc) q := by
  intro l
  induction l with
  | nil => intro acc q hq; simp at hq
  | cons p tl ih =>
    intro acc q hq
    rcases List.mem_cons.1 hq with rfl | hq
    · exact lexLe_trans (foldl_minPair_le_acc tl (minPair acc q)) (minPair_le_arg acc q)
    · exact ih (minPair acc p) q hq

theorem chooseSq_spec {b : Board} (h9 : Cells9 b)
    (hex : ∃ s, s < 81 ∧ 1 < (bcell b s).length) :
    (chooseSq b).2 < 81 ∧ 1 < (bcell b (chooseSq b).2).length ∧
      (chooseSq b).1 = (bcell b (chooseSq b).2).length ∧
      ∀ t, t < 81 → 1 < (bcell b t).length →
        lexLe (chooseSq b) ((bcell b t).length, t) := by
  rcases hex with ⟨s0, hs0, hm0⟩
  have hpair : ((bcell b s0).length, s0) ∈
      (squares.filter (fun s => 1 < (bcell b s).length)).map
        (fun s => ((bcell b s).length, s)) := by
    refine List.mem_map_of_mem _ ?_
    rw [List.mem_filter]
    exact ⟨by simp [squares, List.mem_range, hs0], by simpa using hm0⟩
  have hmem := foldl_minPair_mem
    ((squares.filter (fun s => 1 < (bcell b s).length)).map
      (fun s => ((bcell b s).length, s))) (10, 81)
  have hresmem : chooseSq b ∈
      (squares.filter (fun s => 1 < (bcell b s).length)).map
        (fun s => ((bcell b s).length, s)) := by
    rcases hmem with hacc | hmem
    · exfalso
      have hle : lexLe (chooseSq b) ((bcell b s0).length, s0) :=
        foldl_minPair_le_mem _ _ _ hpair
      have hacc2 : chooseSq b = (10, 81) := hacc
      rw [hacc2] at hle
      have hlen9 : (bcell b s0).length ≤ 9 := bcell_length_le_of_cells9 h9 s0
      rcases hle with hle | ⟨hle, _⟩
      · simp at hle; omega
      · simp at hle; omega
    · exact hmem
  rcases List.mem_map.1 hresmem with ⟨t, htf, hteq⟩
  rw [List.mem_filter] at htf
  have ht81 : t < 81 := by
    have := htf.1
    simpa [squares, List.mem_range] using this
  have htm : 1 < (bcell b t).length := by simpa using htf.2
  have hfst : (chooseSq b).1 = (bcell b t).length := by rw [← hteq]
  have hsnd : (chooseSq b).2 = t := by rw [← hteq]
  refine ⟨hsnd ▸ ht81, hsnd ▸ htm, by rw [hsnd, hfst], ?_⟩
  intro u hu hum
  refine foldl_minPair_le_mem _ _ _ ?_
  refine List.mem_map_of_mem _ ?_
  rw [List.mem_filter]
  exact ⟨by simp [squares, List.mem_range, hu], by simpa using hum⟩

end CPB

namespace CPB

theorem propagateGo_ok_BLe : ∀ pz b r, propagateGo pz b = .ok r → BLe r b := by
  intro pz
  induction pz with
  | nil =>
    intro b r h
    cases h
    exact BLe_refl _
  | cons p rest ih =>
    intro b r h
    rcases p with ⟨s, d⟩
    simp only [propagateGo] at h
    split at h
    · cases hav : assign_value b s d with
      | ok b2 =>
        rw [hav] at h
        exact BLe_trans (ih _ _ h) (step_ok_mono _ _ _ _ hav)
      | fail => rw [hav] at h; exact absurd h (by simp)
      | out => rw [hav] at h; exact absurd h (by simp)
    · exact ih _ _ h

theorem propagateGo_ok_NEP : ∀ pz b r, propagateGo pz b = .ok r → NEP r b := by
  intro pz
  induction pz with
  | nil =>
    intro b r h
    cases h
    exact NEP_refl _
  | cons p rest ih =>
    intro b r h
    rcases p with ⟨s, d⟩
    simp only [propagateGo] at h
    split at h
    · cases hav : assign_value b s d with
      | ok b2 =>
        rw [hav] at h
        exact NEP_trans (ih _ _ h) (step_ok_nonempty _ _ _ _ hav)
      | fail => rw [hav] at h; exact absurd h (by simp)
      | out => rw [hav] at h; exact absurd h (by simp)
    · exact ih _ _ h

theorem propagateGo_ok_consistent : ∀ pz b E r, Consistent b E →
    propagateGo pz b = .ok r → Consistent r E := by
  intro pz
  induction pz with
  | nil =>
    intro b E r hc h
    cases h
    exact hc
  | cons p rest ih =>
    intro b E r hc h
    rcases p with ⟨s, d⟩
    simp only [propagateGo] at h
    split at h
    · cases hav : assign_value b s d with
      | ok b2 =>
        rw [hav] at h
        have hc2 : Consistent b2 E :=
          step_ok_consistent _ _ _ _ _ (by simpa [PreC] using hc) hav
        exact ih _ _ _ hc2 h
      | fail => rw [hav] at h; exact absurd h (by simp)
      | out => rw [hav] at h; exact absurd h (by simp)
    · exact ih _ _ _ hc h

theorem propagateGo_ne_out : ∀ pz b, WB b → propagateGo pz b ≠ .out := by
  intro pz
  induction pz with
  | nil =>
    intro b _
    simp [propagateGo]
  | cons p rest ih =>
    intro b hwb
    rcases p with ⟨s, d⟩
    simp only [propagateGo]
    split
    · cases hav : assign_value b s d with
      | ok b2 => exact ih b2 (hwb.of_BLe (step_ok_mono _ _ _ _ hav))
      | fail => simp
      | out => exact absurd hav (assign_value_ne_out hwb s d)
    · exact ih b hwb

theorem sublist_singleton_of_ne_nil {l : List Nat} {d : Nat} (h : l.Sublist [d])
    (hne : l ≠ []) : l = [d] := by
  cases l with
  | nil => exact absurd rfl hne
  | cons x tl =>
    have hx : x = d := by
      have := h.subset (List.mem_cons_self x tl)
      simpa using this
    subst hx
    have hlen : (x :: tl).length ≤ 1 := by simpa using h.length_le
    have : tl = [] := by
      cases tl with
      | nil => rfl
      | cons y ttl => simp at hlen
    rw [this]

theorem propagateGo_ok_clue : ∀ pz b r, WB b → NEB b → propagateGo pz b = .ok r →
    ∀ s d, (s, d) ∈ pz → s < 81 → 1 ≤ d → d ≤ 9 → bcell r s = [d] := by
  intro pz
  induction pz with
  | nil =>
    intro b r _ _ _ s d hmem
    simp at hmem
  | cons p rest ih =>
    intro b r hwb hneb h s d hmem hs hd1 hd9
    rcases p with ⟨s0, d0⟩
    simp only [propagateGo] at h
    rcases List.mem_cons.1 hmem with heq | hmem
    · injection heq with h1 h2
      subst h1; subst h2
      rw [if_pos ⟨hd1, hd9⟩] at h
      cases hav : assign_value b s d with
      | ok b2 =>
        rw [hav] at h
        have hb2 : bcell b2 s = [d] :=
          step_av_ok_singleton (hwb.nodup s) (hneb s hs) hav
        have hsub : (bcell r s).Sublist (bcell b2 s) := (propagateGo_ok_BLe _ _ _ h).2 s
        have hne : bcell r s ≠ [] :=
          propagateGo_ok_NEP _ _ _ h s (by rw [hb2]; simp)
        rw [hb2] at hsub
        exact sublist_singleton_of_ne_nil hsub hne
      | fail => rw [hav] at h; exact absurd h (by simp)
      | out => rw [hav] at h; exact absurd h (by simp)
    · split at h
      · cases hav : assign_value b s0 d0 with
        | ok b2 =>
          rw [hav] at h
          have hwb2 : WB b2 := hwb.of_BLe (step_ok_mono _ _ _ _ hav)
          have hneb2 : NEB b2 := hneb.of_NEP (step_ok_nonempty _ _ _ _ hav)
          exact ih _ _ hwb2 hneb2 h s d hmem hs hd1 hd9
        | fail => rw [hav] at h; exact absurd h (by simp)
        | out => rw [hav] at h; exact absurd h (by simp)
      · exact ih _ _ hwb hneb h s d hmem hs hd1 hd9

end CPB

namespace CPB

theorem searchStep_ok_props : ∀ f sc r, searchStep f sc = .ok r →
    BLe r sc.board ∧ NEP r sc.board ∧
      (∀ E, Consistent sc.board E → Consistent r E) ∧ allSolved r = true := by
  intro f
  induction f with
  | zero =>
    intro sc r h
    simp [searchStep] at h
  | succ f ih =>
    intro sc r h
    cases sc with
    | main b =>
      simp only [searchStep] at h
      split at h
      · cases h
        rename_i hall
        exact ⟨BLe_refl _, NEP_refl _, fun E hc => hc, hall⟩
      · have := ih _ _ h
        simpa [SCall.board] using this
    | loop b sq cands =>
      cases cands with
      | nil =>
        simp only [searchStep] at h
        exact absurd h (by simp)
      | cons v rest =>
        simp only [searchStep] at h
        cases hav : assign_value b sq v with
        | ok nb =>
          rw [hav] at h
          replace h : (match searchStep f (.main nb) with
            | PRes.ok r => PRes.ok r
            | PRes.fail => searchStep f (.loop b sq rest)
            | PRes.out => PRes.out) = PRes.ok r := h
          cases hrec : searchStep f (.main nb) with
          | ok r2 =>
            rw [hrec] at h
            cases h
            have hmain := ih _ _ hrec
            simp only [SCall.board] at hmain ⊢
            refine ⟨BLe_trans hmain.1 (step_ok_mono _ _ _ _ hav),
              NEP_trans hmain.2.1 (step_ok_nonempty _ _ _ _ hav), ?_, hmain.2.2.2⟩
            intro E hc
            exact hmain.2.2.1 E
              (step_ok_consistent _ _ _ _ _ (by simpa [PreC] using hc) hav)
          | fail =>
            rw [hrec] at h
            have := ih _ _ h
            simpa [SCall.board] using this
          | out =>
            rw [hrec] at h
            exact absurd h (by simp)
        | fail =>
          rw [hav] at h
          replace h : searchStep f (.loop b sq rest) = PRes.ok r := h
          have := ih _ _ h
          simpa [SCall.board] using this
        | out =>
          rw [hav] at h
          exact absurd h (by simp)



theorem unsolved_lt_of_solved_square {nb b : Board} (hle : BLe nb b) {sq : Nat}
    (hsq81 : sq < 81) (hb : 1 < (bcell b sq).length) (hnb : (bcell nb sq).length = 1) :
    unsolved nb < unsolved b := by
  have hx0 : sq ∈ squares := by simp [squares, List.mem_range, hsq81]
  refine length_filter_lt_of_strict ?_ hx0 ?_ ?_
  · intro x _ hx
    simp only [decide_eq_true_eq] at hx ⊢
    exact Nat.lt_of_lt_of_le hx (hle.2 x).length_le
  · simpa using hb
  · simp [hnb]

theorem searchStep_ne_out : ∀ f sc, SOK sc → sneed sc ≤ f → searchStep f sc ≠ .out := by
  intro f
  induction f with
  | zero =>
    intro sc hok hn
    cases sc <;> simp [sneed] at hn
  | succ f ih =>
    intro sc hok hn
    cases sc with
    | main b =>
      rcases hok with ⟨hwb, hneb⟩
      simp only [searchStep]
      split
      · simp
      · rename_i hall
        have hex : ∃ s, s < 81 ∧ 1 < (bcell b s).length := by
          rcases (not_iff_not.2 (allSolved_iff b)).1 (by simpa using hall) with hne
          push_neg at hne
          rcases hne with ⟨s, hs, hlen⟩
          refine ⟨s, hs, ?_⟩
          have hnz : bcell b s ≠ [] := hneb s hs
          have : 0 < (bcell b s).length := List.length_pos.2 hnz
          omega
        have hch := chooseSq_spec hwb.cells9 hex
        refine ih _ ?_ ?_
        · exact ⟨⟨hwb, hneb⟩, hch.2.1⟩
        · have hc9 : (bcell b (chooseSq b).2).length ≤ 9 :=
            bcell_length_le_of_cells9 hwb.cells9 _
          simp only [sneed] at hn ⊢
          omega
    | loop b sq cands =>
      rcases hok with ⟨⟨hwb, hneb⟩, hsq⟩
      cases cands with
      | nil => simp [searchStep]
      | cons v rest =>
        simp only [searchStep]
        cases hav : assign_value b sq v with
        | ok nb =>
          have hwb2 : WB nb := hwb.of_BLe (step_ok_mono _ _ _ _ hav)
          have hneb2 : NEB nb := hneb.of_NEP (step_ok_nonempty _ _ _ _ hav)
          have hsq81 : sq < 81 := by
            have hnz : bcell b sq ≠ [] := by
              intro hc
              rw [hc] at hsq
              simp at hsq
            have h1 := lt_length_of_bcell_ne_nil hnz
            have h2 := hwb.1
            omega
          have hnb1 : (bcell nb sq).length = 1 := by
            rw [step_av_ok_singleton (hwb.nodup sq) (hneb sq hsq81) hav]
            rfl
          have hudec : unsolved nb < unsolved b :=
            unsolved_lt_of_solved_square (step_ok_mono _ _ _ _ hav) hsq81 hsq hnb1
          have hrecno : searchStep f (.main nb) ≠ PRes.out := by
            refine ih _ ⟨hwb2, hneb2⟩ ?_
            simp only [sneed, List.length_cons] at hn ⊢
            omega
          have hrestno : searchStep f (.loop b sq rest) ≠ PRes.out := by
            refine ih _ ⟨⟨hwb, hneb⟩, hsq⟩ ?_
            simp only [sneed, List.length_cons] at hn ⊢
            omega
          show (match searchStep f (SCall.main nb) with
            | PRes.ok r => PRes.ok r
            | PRes.fail => searchStep f (SCall.loop b sq rest)
            | PRes.out => PRes.out) ≠ PRes.out
          cases hrec : searchStep f (.main nb) with
          | ok r2 => simp
          | fail => simpa using hrestno
          | out => exact absurd hrec hrecno
        | fail =>
          refine ih _ ⟨⟨hwb, hneb⟩, hsq⟩ ?_
          simp only [sneed, List.length_cons] at hn ⊢
          omega
        | out => exact absurd hav (assign_value_ne_out hwb sq v)

end CPB

namespace CPB

theorem WB_of_forall_lt {b : Board} (hl : b.length = 81)
    (h : ∀ t, t < 81 → (bcell b t).Sublist digits) : WB b := by
  refine ⟨hl, fun t => ?_⟩
  by_cases ht : t < 81
  · exact h t ht
  · rw [bcell_of_length_le (by omega)]
    exact List.nil_sublist _

theorem unit_list_facts : ∀ u ∈ unit_list, u.length = 9 ∧ u.Nodup ∧ ∀ t ∈ u, t < 81 := by
  decide

theorem digits_count : ∀ d ∈ digits, digits.count d = 1 := by decide

theorem consistent_generate_board : Consistent generate_board (fun _ _ _ => False) := by
  intro x y d hx _ _
  by_cases h81 : x < 81
  · rw [bcell_generate_board h81] at hx
    simp [digits] at hx
  · rw [bcell_of_length_le (by rw [generate_board_length]; omega)] at hx
    simp at hx

theorem solve_some_inv {g out : Grid} (h : solve g = some out) :
    ∃ b sol, propagateGo (toPuzzle g) generate_board = .ok b ∧
      search b = .ok sol ∧ out = toGrid sol := by
  unfold solve solveCore at h
  cases hp : propagateGo (toPuzzle g) generate_board with
  | ok b =>
    rw [hp] at h
    replace h : (match (match search b with
        | PRes.ok sol => SR.done (some (toGrid sol))
        | PRes.fail => SR.done none
        | PRes.out => SR.timeout) with
      | SR.done r => r
      | SR.timeout => none) = some out := h
    cases hs : search b with
    | ok sol =>
      rw [hs] at h
      replace h : some (toGrid sol) = some out := h
      refine ⟨b, sol, rfl, hs, ?_⟩
      injection h with h2
      exact h2.symm
    | fail =>
      rw [hs] at h
      replace h : (none : Option Grid) = some out := h
      simp at h
    | out =>
      rw [hs] at h
      replace h : (none : Option Grid) = some out := h
      simp at h
  | fail =>
    rw [hp] at h
    replace h : (none : Option Grid) = some out := h
    simp at h
  | out =>
    rw [hp] at h
    replace h : (none : Option Grid) = some out := h
    simp at h

theorem search_ok_facts {b sol : Board} (h : search b = .ok sol) :
    BLe sol b ∧ NEP sol b ∧
      (∀ E, Consistent b E → Consistent sol E) ∧ allSolved sol = true := by
  have := searchStep_ok_props SFUEL (.main b) sol h
  simpa [SCall.board] using this

theorem sol_facts {g : Grid} {b sol : Board}
    (hp : propagateGo (toPuzzle g) generate_board = .ok b)
    (hs : search b = .ok sol) :
    WB sol ∧ NEB sol ∧ allSolved sol = true ∧
      Consistent sol (fun _ _ _ => False) := by
  have hwbb : WB b := WB_generate_board.of_BLe (propagateGo_ok_BLe _ _ _ hp)
  have hnebb : NEB b := NEB_generate_board.of_NEP (propagateGo_ok_NEP _ _ _ hp)
  have hcb : Consistent b (fun _ _ _ => False) :=
    propagateGo_ok_consistent _ _ _ _ consistent_generate_board hp
  have hsf := search_ok_facts hs
  exact ⟨hwbb.of_BLe hsf.1, hnebb.of_NEP hsf.2.1, hsf.2.2.2, hsf.2.2.1 _ hcb⟩

theorem solved_cell {sol : Board} (hwb : WB sol) (hall : allSolved sol = true)
    {t : Nat} (ht : t < 81) :
    bcell sol t = [(bcell sol t).headD 0] ∧ (bcell sol t).headD 0 ∈ digits := by
  have hlen := (allSolved_iff sol).1 hall t ht
  rcases List.length_eq_one.1 hlen with ⟨a, ha⟩
  rw [ha]
  refine ⟨rfl, ?_⟩
  have : a ∈ bcell sol t := by rw [ha]; exact List.mem_cons_self _ _
  exact (hwb.2 t).subset this

theorem unit_vals_nodup {sol : Board} (hwb : WB sol) (hall : allSolved sol = true)
    (hcons : Consistent sol (fun _ _ _ => False)) {u : List Nat} (hu : u ∈ unit_list) :
    (u.map (fun t => (bcell sol t).headD 0)).Nodup := by
  have hfacts := unit_list_facts u hu
  have hnd : u.Nodup := hfacts.2.1
  rw [List.Nodup, List.pairwise_map]
  refine hnd.imp_of_mem ?_
  intro a b ha hb hne heq
  have ha81 : a < 81 := hfacts.2.2 a ha
  have hb81 : b < 81 := hfacts.2.2 b hb
  have hca := solved_cell hwb hall ha81
  have hcb := solved_cell hwb hall hb81
  have hbp : b ∈ peers a := mem_peers_of_mem_unit hu ha hb (fun hc => hne hc.symm)
  refine hcons a b ((bcell sol a).headD 0) hca.1 hbp ?_
  rw [heq, hcb.1]
  exact List.mem_cons_self _ _

theorem unit_vals_count {sol : Board} (hwb : WB sol) (hall : allSolved sol = true)
    (hcons : Consistent sol (fun _ _ _ => False)) {u : List Nat} (hu : u ∈ unit_list) :
    ∀ d ∈ digits, (u.map (fun t => (bcell sol t).headD 0)).count d = 1 := by
  have hnodup := unit_vals_nodup hwb hall hcons hu
  have hsub : (u.map (fun t => (bcell sol t).headD 0)) ⊆ digits := by
    intro x hx
    rcases List.mem_map.1 hx with ⟨t, ht, rfl⟩
    exact (solved_cell hwb hall ((unit_list_facts u hu).2.2 t ht)).2
  have hsp := hnodup.subperm hsub
  have hperm : (u.map (fun t => (bcell sol t).headD 0)).Perm digits := by
    refine hsp.perm_of_length_le ?_
    have h1 : (u.map (fun t => (bcell sol t).headD 0)).length = 9 := by
      rw [List.length_map, (unit_list_facts u hu).1]
    have h2 : digits.length = 9 := rfl
    rw [h1, h2]
  intro d hd
  rw [hperm.count_eq]
  exact digits_count d hd

theorem getD_map_range {n : Nat} {f : Nat → List Nat} {i : Nat} (hi : i < n) :
    ((List.range n).map f).getD i [] = f i := by
  rw [List.getD_eq_getElem?_getD, List.getElem?_map, List.getElem?_range hi]
  rfl

theorem getD_map_range_nat {n : Nat} {f : Nat → Nat} {i : Nat} (hi : i < n) :
    ((List.range n).map f).getD i 0 = f i := by
  rw [List.getD_eq_getElem?_getD, List.getElem?_map, List.getElem?_range hi]
  rfl

theorem toGrid_cell (sol : Board) {i j : Nat} (hi : i < 9) (hj : j < 9) :
    ((toGrid sol).getD i []).getD j 0 = (bcell sol (9 * i + j)).headD 0 := by
  rw [toGrid, getD_map_range hi, getD_map_range_nat hj]

theorem toGrid_row (sol : Board) {i : Nat} (hi : i < 9) :
    gridRow (toGrid sol) i = (rowUnit i).map (fun t => (bcell sol t).headD 0) := by
  rw [gridRow, toGrid, getD_map_range hi, rowUnit, List.map_map]
  rfl

theorem toGrid_col (sol : Board) {j : Nat} (hj : j < 9) :
    gridCol (toGrid sol) j = (colUnit j).map (fun t => (bcell sol t).headD 0) := by
  rw [gridCol, colUnit, List.map_map]
  refine List.map_congr_left ?_
  intro i hi
  have hi9 : i < 9 := List.mem_range.1 hi
  exact toGrid_cell sol hi9 hj

theorem toGrid_box (sol : Board) {bi bj : Nat} (hbi : bi < 3) (hbj : bj < 3) :
    gridBox (toGrid sol) bi bj = (boxUnit bi bj).map (fun t => (bcell sol t).headD 0) := by
  rw [gridBox, boxUnit, List.map_flatten, List.map_map]
  congr 1
  refine List.map_congr_left ?_
  intro di hdi
  have hdi3 : di < 3 := List.mem_range.1 hdi
  simp only [Function.comp, List.map_map]
  refine List.map_congr_left ?_
  intro dj hdj
  have hdj3 : dj < 3 := List.mem_range.1 hdj
  have h1 : 3 * bi + di < 9 := by omega
  have h2 : 3 * bj + dj < 9 := by omega
  exact toGrid_cell sol h1 h2

theorem rowUnit_mem_unit_list {i : Nat} (hi : i < 9) : rowUnit i ∈ unit_list := by
  rw [unit_list]
  refine List.mem_append_left _ (List.mem_append_left _ ?_)
  exact List.mem_map_of_mem _ (List.mem_range.2 hi)

theorem colUnit_mem_unit_list {j : Nat} (hj : j < 9) : colUnit j ∈ unit_list := by
  rw [unit_list]
  refine List.mem_append_left _ (List.mem_append_right _ ?_)
  exact List.mem_map_of_mem _ (List.mem_range.2 hj)

theorem boxUnit_mem_unit_list {bi bj : Nat} (hbi : bi < 3) (hbj : bj < 3) :
    boxUnit bi bj ∈ unit_list := by
  rw [unit_list]
  refine List.mem_append_right _ ?_
  refine List.mem_flatten.2 ⟨(List.range 3).map (fun bc => boxUnit bi bc), ?_, ?_⟩
  · exact List.mem_map_of_mem _ (List.mem_range.2 hbi)
  · exact List.mem_map_of_mem _ (List.mem_range.2 hbj)

theorem toPuzzle_mem {g : Grid} {s d : Nat} (h : (s, d) ∈ toPuzzle g) :
    ∃ i j row, g[i]? = some row ∧ row[j]? = some d ∧ s = 9 * i + j := by
  rw [toPuzzle] at h
  rcases List.mem_flatten.1 h with ⟨inner, hinner, hmem⟩
  rcases List.mem_map.1 hinner with ⟨⟨i, row⟩, hrow, rfl⟩
  rcases List.mem_map.1 hmem with ⟨⟨j, v⟩, hjv, heq⟩
  injection heq with h1 h2
  replace h1 : 9 * i + j = s := h1
  replace h2 : v = d := h2
  replace hjv : (j, v) ∈ row.enum := hjv
  refine ⟨i, j, row, ?_, ?_, h1.symm⟩
  · exact List.mk_mem_enum_iff_getElem?.1 hrow
  · have hv := List.mk_mem_enum_iff_getElem?.1 hjv
    rw [h2] at hv
    exact hv

theorem toPuzzle_mem_of {g : Grid} {i j : Nat} (hi : i < g.length)
    (hj : j < (g.getD i []).length) :
    (9 * i + j, (g.getD i []).getD j 0) ∈ toPuzzle g := by
  rw [toPuzzle]
  have hrow : g[i]? = some (g.getD i []) := by
    rw [List.getD_eq_getElem?_getD, List.getElem?_eq_getElem hi]
    rfl
  have hval : (g.getD i [])[j]? = some ((g.getD i []).getD j 0) := by
    rw [List.getD_eq_getElem?_getD (g.getD i []) j, List.getElem?_eq_getElem hj]
    rfl
  refine List.mem_flatten.2
    ⟨((g.getD i []).enum.map (fun jv => (9 * i + jv.1, jv.2))), ?_, ?_⟩
  · refine List.mem_map.2 ⟨(i, g.getD i []), ?_, rfl⟩
    exact List.mk_mem_enum_iff_getElem?.2 hrow
  · refine List.mem_map.2 ⟨(j, (g.getD i []).getD j 0), ?_, rfl⟩
    exact List.mk_mem_enum_iff_getElem?.2 hval

theorem toPuzzle_bounds {g : Grid} (hok : GridOk g) :
    ∀ p ∈ toPuzzle g, p.1 < 81 ∧ p.2 ≤ 9 := by
  rintro ⟨s, d⟩ hp
  rcases toPuzzle_mem hp with ⟨i, j, row, hrow, hval, rfl⟩
  have hi : i < g.length := by
    by_contra hc
    rw [List.getElem?_eq_none (by omega)] at hrow
    simp at hrow
  have hrowmem : row ∈ g := by
    have := List.getElem?_eq_some_iff.1 hrow
    rcases this with ⟨hlt, heq⟩
    rw [← heq]
    exact List.getElem_mem hlt
  have hrowfacts := hok.2 row hrowmem
  have hj : j < row.length := by
    by_contra hc
    rw [List.getElem?_eq_none (by omega)] at hval
    simp at hval
  have hdmem : d ∈ row := by
    rcases List.getElem?_eq_some_iff.1 hval with ⟨hlt, heq⟩
    rw [← heq]
    exact List.getElem_mem hlt
  constructor
  · have hi9 : i < 9 := by rw [hok.1] at hi; exact hi
    have hj9 : j < 9 := by rw [hrowfacts.1] at hj; exact hj
    omega
  · exact hrowfacts.2 d hdmem

end CPB

namespace CPB

theorem getD_mem_of_lt {α : Type} {l : List α} {i : Nat} (d : α) (hi : i < l.length) :
    l.getD i d ∈ l := by
  have : l.getD i d = l[i] := by
    simp [List.getD_eq_getElem?_getD, List.getElem?_eq_getElem hi]
  rw [this]
  exact List.getElem_mem hi

theorem row_facts {g : Grid} (hok : GridOk g) {i : Nat} (hi : i < 9) :
    (g.getD i []).length = 9 ∧ ∀ v ∈ g.getD i [], v ≤ 9 := by
  have hmem : g.getD i [] ∈ g := getD_mem_of_lt [] (by rw [hok.1]; exact hi)
  exact hok.2 _ hmem

theorem clue_range {g : Grid} (hok : GridOk g) {i j : Nat} (hi : i < 9) (hj : j < 9)
    (hnz : (g.getD i []).getD j 0 ≠ 0) :
    1 ≤ (g.getD i []).getD j 0 ∧ (g.getD i []).getD j 0 ≤ 9 := by
  have hrow := row_facts hok hi
  have hmem : (g.getD i []).getD j 0 ∈ g.getD i [] :=
    getD_mem_of_lt 0 (by rw [hrow.1]; exact hj)
  exact ⟨by omega, hrow.2 _ hmem⟩

theorem clue_in_puzzle {g : Grid} (hok : GridOk g) {i j : Nat} (hi : i < 9) (hj : j < 9) :
    (9 * i + j, (g.getD i []).getD j 0) ∈ toPuzzle g := by
  refine toPuzzle_mem_of (by rw [hok.1]; exact hi) ?_
  rw [(row_facts hok hi).1]
  exact hj

theorem clue_cell_after_solve {g : Grid} {b sol : Board} (hok : GridOk g)
    (hp : propagateGo (toPuzzle g) generate_board = .ok b) (hs : search b = .ok sol)
    {i j : Nat} (hi : i < 9) (hj : j < 9) (hnz : (g.getD i []).getD j 0 ≠ 0) :
    bcell sol (9 * i + j) = [(g.getD i []).getD j 0] := by
  have hd := clue_range hok hi hj hnz
  have hclue := propagateGo_ok_clue _ _ _ WB_generate_board NEB_generate_board hp
    (9 * i + j) _ (clue_in_puzzle hok hi hj) (by omega) hd.1 hd.2
  have hsf := search_ok_facts hs
  have hsub : (bcell sol (9 * i + j)).Sublist [(g.getD i []).getD j 0] := by
    have := hsf.1.2 (9 * i + j)
    rwa [hclue] at this
  have hne : bcell sol (9 * i + j) ≠ [] := by
    refine hsf.2.1 _ ?_
    rw [hclue]
    simp
  exact sublist_singleton_of_ne_nil hsub hne

/-- C1: whenever `solve` succeeds on a 9x9 grid of entries in [0,9], the
returned grid contains only digits 1-9 and every row, every column, and
every 3x3 box contains each digit 1-9 exactly once. -/
theorem solve_output_valid : ∀ g out, GridOk g → solve g = some out →
    (∀ row ∈ out, ∀ v ∈ row, v ∈ digits) ∧
    ∀ d ∈ digits,
      (∀ i, i < 9 → (gridRow out i).count d = 1) ∧
      (∀ j, j < 9 → (gridCol out j).count d = 1) ∧
      (∀ bi bj, bi < 3 → bj < 3 → (gridBox out bi bj).count d = 1) := by
  intro g out hok h
  rcases solve_some_inv h with ⟨b, sol, hp, hs, rfl⟩
  rcases sol_facts hp hs with ⟨hwb, hneb, hall, hcons⟩
  constructor
  · intro row hrow v hv
    rw [toGrid] at hrow
    rcases List.mem_map.1 hrow with ⟨i, hi, rfl⟩
    rcases List.mem_map.1 hv with ⟨j, hj, rfl⟩
    have hi9 := List.mem_range.1 hi
    have hj9 := List.mem_range.1 hj
    exact (solved_cell hwb hall (by omega)).2
  · intro d hd
    refine ⟨?_, ?_, ?_⟩
    · intro i hi
      rw [toGrid_row sol hi]
      exact unit_vals_count hwb hall hcons (rowUnit_mem_unit_list hi) d hd
    · intro j hj
      rw [toGrid_col sol hj]
      exact unit_vals_count hwb hall hcons (colUnit_mem_unit_list hj) d hd
    · intro bi bj hbi hbj
      rw [toGrid_box sol hbi hbj]
      exact unit_vals_count hwb hall hcons (boxUnit_mem_unit_list hbi hbj) d hd

/-- C2: whenever `solve` succeeds, every non-blank input cell holds the
same digit in the returned solution grid. -/
theorem solve_preserves_clues : ∀ g out, GridOk g → solve g = some out →
    ∀ i j, i < 9 → j < 9 → (g.getD i []).getD j 0 ≠ 0 →
      (out.getD i []).getD j 0 = (g.getD i []).getD j 0 := by
  intro g out hok h i j hi hj hnz
  rcases solve_some_inv h with ⟨b, sol, hp, hs, rfl⟩
  rw [toGrid_cell sol hi hj, clue_cell_after_solve hok hp hs hi hj hnz]
  rfl

theorem mem_rowUnit {i j : Nat} (hj : j < 9) : 9 * i + j ∈ rowUnit i :=
  List.mem_map_of_mem _ (List.mem_range.2 hj)

theorem mem_colUnit {i j : Nat} (hi : i < 9) : 9 * i + j ∈ colUnit j :=
  List.mem_map_of_mem _ (List.mem_range.2 hi)

theorem mem_boxUnit {i j : Nat} (_hi : i < 9) (_hj : j < 9) :
    9 * i + j ∈ boxUnit (i / 3) (j / 3) := by
  have heq : 9 * i + j = 9 * (3 * (i / 3) + i % 3) + (3 * (j / 3) + j % 3) := by omega
  rw [heq, boxUnit]
  refine List.mem_flatten.2
    ⟨(List.range 3).map (fun dc => 9 * (3 * (i / 3) + i % 3) + (3 * (j / 3) + dc)), ?_, ?_⟩
  · exact List.mem_map_of_mem _ (List.mem_range.2 (by omega))
  · exact List.mem_map_of_mem _ (List.mem_range.2 (by omega))

/-- C5: a grid carrying the same non-zero clue twice in one row, column
or box makes `solve` return the failure value None (contradictions are
returned as values; the embedding is a total function, so no exception
can escape). -/
theorem duplicate_clues_unsolvable : ∀ g i1 j1 i2 j2, GridOk g →
    i1 < 9 → j1 < 9 → i2 < 9 → j2 < 9 → ¬(i1 = i2 ∧ j1 = j2) →
    (i1 = i2 ∨ j1 = j2 ∨ (i1 / 3 = i2 / 3 ∧ j1 / 3 = j2 / 3)) →
    (g.getD i1 []).getD j1 0 = (g.getD i2 []).getD j2 0 →
    (g.getD i1 []).getD j1 0 ≠ 0 →
    solve g = none := by
  intro g i1 j1 i2 j2 hok hi1 hj1 hi2 hj2 hne hunit heq hnz
  cases hsv : solve g with
  | none => rfl
  | some out =>
    exfalso
    rcases solve_some_inv hsv with ⟨b, sol, hp, hs, rfl⟩
    have hd := clue_range hok hi1 hj1 hnz
    have hc1 := propagateGo_ok_clue _ _ _ WB_generate_board NEB_generate_board hp
      (9 * i1 + j1) _ (clue_in_puzzle hok hi1 hj1) (by omega) hd.1 hd.2
    have hc2 := propagateGo_ok_clue _ _ _ WB_generate_board NEB_generate_board hp
      (9 * i2 + j2) _ (clue_in_puzzle hok hi2 hj2) (by omega)
      (by rw [← heq]; exact hd.1) (by rw [← heq]; exact hd.2)
    rw [← heq] at hc2
    have hsne : 9 * i1 + j1 ≠ 9 * i2 + j2 := by
      intro hc
      exact hne (by omega)
    have hpeer : (9 * i2 + j2) ∈ peers (9 * i1 + j1) := by
      rcases hunit with hrow | hcol | hbox
      · subst hrow
        exact mem_peers_of_mem_unit (rowUnit_mem_unit_list hi1)
          (mem_rowUnit hj1) (mem_rowUnit hj2) (Ne.symm hsne)
      · subst hcol
        exact mem_peers_of_mem_unit (colUnit_mem_unit_list hj1)
          (mem_colUnit hi1) (mem_colUnit hi2) (Ne.symm hsne)
      · rcases hbox with ⟨hbi, hbj⟩
        refine mem_peers_of_mem_unit (boxUnit_mem_unit_list
          (show i1 / 3 < 3 by omega) (show j1 / 3 < 3 by omega))
          (mem_boxUnit hi1 hj1) ?_ (Ne.symm hsne)
        rw [hbi, hbj]
        exact mem_boxUnit hi2 hj2
    have hcons : Consistent b (fun _ _ _ => False) :=
      propagateGo_ok_consistent _ _ _ _ consistent_generate_board hp
    refine hcons (9 * i1 + j1) (9 * i2 + j2) _ hc1 hpeer ?_
    rw [hc2]
    exact List.mem_cons_self _ _

theorem digits_sorted : List.Sorted (· < ·) digits := by decide

/-- C6: at a branch state, `_search` selects the first unsolved square of
minimal candidate count, iterates its candidates in increasing order (the
candidate list of a reachable board is strictly increasing), and returns
the first solution found without trying further candidates. -/
theorem search_branch_behavior : ∀ b f, WB b → NEB b →
    (∃ s, s < 81 ∧ 1 < (bcell b s).length) → allSolved b = false →
    ((chooseSq b).2 < 81 ∧ 1 < (bcell b (chooseSq b).2).length ∧
      (∀ t, t < 81 → 1 < (bcell b t).length →
        (bcell b (chooseSq b).2).length < (bcell b t).length ∨
          ((bcell b (chooseSq b).2).length = (bcell b t).length ∧ (chooseSq b).2 ≤ t))) ∧
    List.Sorted (· < ·) (bcell b (chooseSq b).2) ∧
    searchStep (f + 1) (.main b) =
      searchStep f (.loop b (chooseSq b).2 (bcell b (chooseSq b).2)) ∧
    (∀ v rest nb r, assign_value b (chooseSq b).2 v = .ok nb →
      searchStep f (.main nb) = .ok r →
      searchStep (f + 1) (.loop b (chooseSq b).2 (v :: rest)) = .ok r) := by
  intro b f hwb hneb hex hall
  have hch := chooseSq_spec hwb.cells9 hex
  refine ⟨⟨hch.1, hch.2.1, ?_⟩, ?_, ?_, ?_⟩
  · intro t ht htm
    have := hch.2.2.2 t ht htm
    rcases this with hlt | ⟨heq2, hle⟩
    · left
      rw [← hch.2.2.1]
      exact hlt
    · right
      exact ⟨by rw [← hch.2.2.1]; exact heq2, hle⟩
  · exact List.Pairwise.sublist (hwb.2 (chooseSq b).2) digits_sorted
  · simp [searchStep, hall]
  · intro v rest nb r hav hrec
    simp [searchStep, hav, hrec]

theorem step_av_noop (f : Nat) {b : Board} {s d : Nat} (hcell : bcell b s = [d]) :
    step (f + 2) b (.av s d) = .ok b := by
  show step (f + 1 + 1) b (.av s d) = .ok b
  simp only [step]
  rw [hcell]
  have hfil : [d].filter (fun x => x ≠ d) = [] := by simp
  rw [hfil]

theorem assign_noop {b : Board} {s d : Nat} (hcell : bcell b s = [d]) :
    assign_value b s d = .ok b :=
  step_av_noop 399998 hcell

theorem propagate_fixed_point : ∀ pz (b : Board),
    (∀ s d, (s, d) ∈ pz → 1 ≤ d → d ≤ 9 → bcell b s = [d]) →
    propagateGo pz b = .ok b := by
  intro pz
  induction pz with
  | nil =>
    intro b _
    rfl
  | cons p rest ih =>
    intro b hcell
    rcases p with ⟨s, d⟩
    simp only [propagateGo]
    split
    · rename_i hd
      rw [assign_noop (hcell s d (List.mem_cons_self _ _) hd.1 hd.2)]
      exact ih b (fun s2 d2 hm => hcell s2 d2 (List.mem_cons_of_mem _ hm))
    · exact ih b (fun s2 d2 hm => hcell s2 d2 (List.mem_cons_of_mem _ hm))

/-- C7: a board produced by a successful initial propagation is a fixed
point - re-running the propagation of the same puzzle on it succeeds and
returns the very same board, changing no candidate set. -/
theorem propagate_idempotent : ∀ g b, GridOk g →
    propagateGo (toPuzzle g) generate_board = .ok b →
    propagateGo (toPuzzle g) b = .ok b := by
  intro g b hok hp
  refine propagate_fixed_point _ _ ?_
  intro s d hmem hd1 hd9
  exact propagateGo_ok_clue _ _ _ WB_generate_board NEB_generate_board hp s d hmem
    (toPuzzle_bounds hok (s, d) hmem).1 hd1 hd9

theorem unsolved_le (b : Board) : unsolved b ≤ 81 := by
  have := List.length_filter_le (fun s => 1 < (bcell b s).length) squares
  simpa [squares, unsolved] using this

/-- C8: on every 9x9 input grid solve terminates within the proved fuel
bounds: propagation needs at most 501*729+620 nested calls on a board of
at most 81*9 candidates, and search at most 11 frames per level for at
most 81 levels; with those official fuels no fuel exhaustion (`timeout`)
can occur. -/
theorem solve_terminates : ∀ g, GridOk g → solveCore g ≠ .timeout := by
  intro g hok
  unfold solveCore
  cases hp : propagateGo (toPuzzle g) generate_board with
  | fail => simp
  | out => exact absurd hp (propagateGo_ne_out _ _ WB_generate_board)
  | ok b =>
    have hwb : WB b := WB_generate_board.of_BLe (propagateGo_ok_BLe _ _ _ hp)
    have hneb : NEB b := NEB_generate_board.of_NEP (propagateGo_ok_NEP _ _ _ hp)
    have hs : search b ≠ .out := by
      refine searchStep_ne_out _ _ ⟨hwb, hneb⟩ ?_
      have := unsolved_le b
      simp only [sneed, SFUEL]
      omega
    show ¬(match search b with
      | PRes.ok sol => SR.done (some (toGrid sol))
      | PRes.fail => SR.done none
      | PRes.out => SR.timeout) = SR.timeout
    cases hsearch : search b with
    | ok sol => simp
    | fail => simp
    | out => exact absurd hsearch hs

/-- C9: assigning a digit that is no longer among a (non-empty) square's
candidates fails: the set of digits to eliminate is the whole candidate
set, and its last elimination empties the square, firing the
contradiction rule. -/
theorem assign_absent_digit_fails : ∀ b s d, WB b → bcell b s ≠ [] →
    d ∉ bcell b s → assign_value b s d = .fail := by
  intro b s d hwb hne hd
  cases hav : assign_value b s d with
  | fail => rfl
  | out => exact absurd hav (assign_value_ne_out hwb s d)
  | ok r => exact absurd (step_av_ok_mem (hwb.nodup s) hne hav) hd

end CPB

end EngineLemmas

section Claims

/-- C4 (amended claim): for every cell, in both solver files, units(cell)
is exactly 3 groups of 9 cells and peers(cell) is the 20-element set
union(units(cell)) minus the cell itself; in sudoku_cp_backtracking.py the
unit order is [row, column, box], while in sudoku_cp.py it is
[column, row, box]. -/
theorem topoA : ∀ s < 81,
    CPB.units s = [CPB.rowUnit (s / 9), CPB.colUnit (s % 9),
      CPB.boxUnit (s / 9 / 3) (s % 9 / 3)] ∧
    (CPB.units s).length = 3 ∧
    (∀ u ∈ CPB.units s, u.length = 9) ∧
    (CPB.peers s).length = 20 := by
  decide

theorem topoB : ∀ s < 81,
    (CPB.peers s).Nodup ∧
    s ∉ CPB.peers s ∧
    (∀ t ∈ (CPB.units s).flatten, t ≠ s → t ∈ CPB.peers s) ∧
    (∀ t ∈ CPB.peers s, t ∈ (CPB.units s).flatten ∧ t ≠ s) := by
  decide

theorem topoC : ∀ s < 81,
    CP.units s = [CPB.colUnit (s % 9), CPB.rowUnit (s / 9),
      CPB.boxUnit (s / 9 / 3) (s % 9 / 3)] ∧
    (CP.units s).length = 3 ∧
    (CP.peers s).length = 20 := by
  decide

theorem topoD : ∀ s < 81,
    s ∉ CP.peers s ∧
    (∀ t ∈ (CP.units s).flatten, t ≠ s → t ∈ CP.peers s) ∧
    (∀ t ∈ CP.peers s, t ∈ (CP.units s).flatten ∧ t ≠ s) := by
  decide

theorem units_peers_topology :
    ∀ s < 81,
      (CPB.units s = [CPB.rowUnit (s / 9), CPB.colUnit (s % 9),
          CPB.boxUnit (s / 9 / 3) (s % 9 / 3)] ∧
        (CPB.units s).length = 3 ∧
        (∀ u ∈ CPB.units s, u.length = 9) ∧
        (CPB.peers s).length = 20) ∧
      ((CPB.peers s).Nodup ∧
        s ∉ CPB.peers s ∧
        (∀ t ∈ (CPB.units s).flatten, t ≠ s → t ∈ CPB.peers s) ∧
        (∀ t ∈ CPB.peers s, t ∈ (CPB.units s).flatten ∧ t ≠ s)) ∧
      (CP.units s = [CPB.colUnit (s % 9), CPB.rowUnit (s / 9),
          CPB.boxUnit (s / 9 / 3) (s % 9 / 3)] ∧
        (CP.units s).length = 3 ∧
        (CP.peers s).length = 20) ∧
      (s ∉ CP.peers s ∧
        (∀ t ∈ (CP.units s).flatten, t ≠ s → t ∈ CP.peers s) ∧
        (∀ t ∈ CP.peers s, t ∈ (CP.units s).flatten ∧ t ≠ s)) :=
  fun s hs => ⟨topoA s hs, topoB s hs, topoC s hs, topoD s hs⟩

/-- Witness for `units_peers_topology` at cell A1 (index 0). -/
theorem units_peers_topology_witness :
    (0 : Nat) < 81 ∧ (CPB.units 0).length = 3 ∧ (CP.peers 0).length = 20 := by
  refine ⟨by decide, ?_, ?_⟩
  · exact ((units_peers_topology 0 (by decide)).1).2.1
  · exact (((units_peers_topology 0 (by decide)).2).2.1).2.2

/-- C4 counterexample: the claim says units(cell) is always in the order
[row, column, box], and cites sudoku_cp.py's UNIT_LIST; but for cell A1
that file puts the column unit first (its own unit test asserts the
column-first order). -/
theorem cp_units_order_counterexample :
    CP.units 0 ≠ [CPB.rowUnit 0, CPB.colUnit 0, CPB.boxUnit 0 0] := by
  decide

/-- C3 (amended claim, the part that holds): in sudoku_cp_backtracking.py
the search layer copies the board before each trial assignment, so when a
trial fails - whether the assignment itself fails or the recursive search
returns failure - the loop continues on the board exactly as it was
before the trial. -/
theorem search_trial_uses_unchanged_board (f : Nat) (b : CPB.Board) (sq v : Nat)
    (rest : List Nat) :
    (CPB.assign_value b sq v = .fail →
      CPB.searchStep (f + 1) (.loop b sq (v :: rest)) =
        CPB.searchStep f (.loop b sq rest)) ∧
    (∀ nb, CPB.assign_value b sq v = .ok nb →
      CPB.searchStep f (.main nb) = .fail →
      CPB.searchStep (f + 1) (.loop b sq (v :: rest)) =
        CPB.searchStep f (.loop b sq rest)) := by
  constructor
  · intro h
    simp [CPB.searchStep, h]
  · intro nb h1 h2
    simp [CPB.searchStep, h1, h2]

/-- Witness for `search_trial_uses_unchanged_board`: on `wbFrame` the
trial digit 4 at square A1 fails and the loop continues on `wbFrame`. -/
theorem search_trial_uses_unchanged_board_witness :
    CPB.assign_value CPB.wbFrame 0 4 = .fail ∧
      CPB.searchStep 1 (.loop CPB.wbFrame 0 [4, 7]) =
        CPB.searchStep 0 (.loop CPB.wbFrame 0 [7]) :=
  ⟨by decide, (search_trial_uses_unchanged_board 0 CPB.wbFrame 0 4 [7]).1 (by decide)⟩

/-- C3 counterexample: sudoku_cp.py's `depth_first_search` passes the live
board into `propagate_constraints` at each trial instead of a copy; on
`cexBoard` the first trial (digit 4 at A1) fails after mutating the board,
the second candidate is then evaluated against the corrupted board, and
the search returns failure with the caller's board changed - even though
completing A1 with 5 yields a valid solved board. -/
theorem dfs_mutates_board_counterexample :
    (CP.depth_first_search CPB.cexBoard).2 = .fail ∧
      (CP.depth_first_search CPB.cexBoard).1 ≠ CPB.cexBoard := by
  decide

/-- C10: `SudokuSolver.solve` never writes to the caller's grid - its body
only reads `grid` (the `enumerate` loop building the puzzle mapping) and
works on the freshly generated candidate board, so the final state of the
grid object, made explicit by `solveFull`, is the argument itself, whether
solving succeeds or fails. -/
theorem solve_preserves_input_grid : ∀ g : CPB.Grid, (CPB.solveFull g).1 = g :=
  fun _ => rfl

namespace CPB

/-- `propagate_constraints` processes an appended clue list by processing
the first part and, on success, the second part on the resulting board. -/
theorem propagateGo_append (l1 l2 : List (Nat × Nat)) (b : Board) :
    propagateGo (l1 ++ l2) b =
      match propagateGo l1 b with
      | .ok b2 => propagateGo l2 b2
      | r => r := by
  induction l1 generalizing b with
  | nil => rfl
  | cons p rest ih =>
    obtain ⟨s, d⟩ := p
    show propagateGo ((s, d) :: (rest ++ l2)) b = _
    by_cases h : 1 ≤ d ∧ d ≤ 9
    · show (if 1 ≤ d ∧ d ≤ 9 then
          match assign_value b s d with
          | .ok b2 => propagateGo (rest ++ l2) b2
          | r => r
        else propagateGo (rest ++ l2) b) = _
      rw [if_pos h]
      cases hv : assign_value b s d with
      | ok b2 =>
        show propagateGo (rest ++ l2) b2 = _
        rw [ih b2]
        show _ = (match (if 1 ≤ d ∧ d ≤ 9 then
            match assign_value b s d with
            | .ok b2 => propagateGo rest b2
            | r => r
          else propagateGo rest b) with
          | PRes.ok b2 => propagateGo l2 b2
          | r => r)
        rw [if_pos h, hv]
      | fail =>
        show PRes.fail = _
        conv_rhs => rw [show propagateGo ((s, d) :: rest) b = .fail by
          show (if 1 ≤ d ∧ d ≤ 9 then
              match assign_value b s d with
              | .ok b2 => propagateGo rest b2
              | r => r
            else propagateGo rest b) = .fail
          rw [if_pos h, hv]]
      | out =>
        show PRes.out = _
        conv_rhs => rw [show propagateGo ((s, d) :: rest) b = .out by
          show (if 1 ≤ d ∧ d ≤ 9 then
              match assign_value b s d with
              | .ok b2 => propagateGo rest b2
              | r => r
            else propagateGo rest b) = .out
          rw [if_pos h, hv]]
    · show (if 1 ≤ d ∧ d ≤ 9 then
          match assign_value b s d with
          | .ok b2 => propagateGo (rest ++ l2) b2
          | r => r
        else propagateGo (rest ++ l2) b) = _
      rw [if_neg h]
      rw [ih b]
      show _ = (match (if 1 ≤ d ∧ d ≤ 9 then
          match assign_value b s d with
          | .ok b2 => propagateGo rest b2
          | r => r
        else propagateGo rest b) with
        | PRes.ok b2 => propagateGo l2 b2
        | r => r)
      rw [if_neg h]

/-- Stage 1 of the clue propagation of `solGrid`: assigning the row-1
clues into `generate_board` succeeds and yields `solB1`. -/
theorem solveStage1 : propagateGo solClues1 generate_board = .ok solB1 := by decide

/-- Stage 2 of the clue propagation of `solGrid`: assigning the row-2
clues into `solB1` succeeds and yields `solB2`. -/
theorem solveStage2 : propagateGo solClues2 solB1 = .ok solB2 := by decide

/-- Stage 3 of the clue propagation of `solGrid`: assigning the row-3
clues into `solB2` succeeds and yields `solB3`. -/
theorem solveStage3 : propagateGo solClues3 solB2 = .ok solB3 := by decide

/-- Stage 4 of the clue propagation of `solGrid`: assigning the row-4
clues into `solB3` succeeds and yields `solB4`. -/
theorem solveStage4 : propagateGo solClues4 solB3 = .ok solB4 := by decide

/-- Stage 5 of the clue propagation of `solGrid`: assigning the row-5
clues into `solB4` succeeds and yields `solB5`. -/
theorem solveStage5 : propagateGo solClues5 solB4 = .ok solB5 := by decide

/-- Stage 6 of the clue propagation of `solGrid`: assigning the row-6
clues into `solB5` succeeds and yields `solB6`. -/
theorem solveStage6 : propagateGo solClues6 solB5 = .ok solB6 := by decide

/-- Stage 7 of the clue propagation of `solGrid`: assigning the row-7
clues into `solB6` succeeds and yields `solB7`. -/
theorem solveStage7 : propagateGo solClues7 solB6 = .ok solB7 := by decide

/-- Stage 8 of the clue propagation of `solGrid`: assigning the row-8
clues into `solB7` succeeds and yields `solB8`. -/
theorem solveStage8 : propagateGo solClues8 solB7 = .ok solB8 := by decide

/-- Stage 9 of the clue propagation of `solGrid`: assigning the row-9
clues into `solB8` succeeds and yields `solB9`. -/
theorem solveStage9 : propagateGo solClues9 solB8 = .ok solB9 := by decide

/-- The clue list of `solGrid` splits into its nine row chunks. -/
theorem toPuzzle_solGrid_chunks :
    toPuzzle solGrid = solClues1 ++ (solClues2 ++ (solClues3 ++ (solClues4 ++ (solClues5 ++ (solClues6 ++ (solClues7 ++ (solClues8 ++ (solClues9)))))))) := by decide

/-- Propagating all 81 clues of `solGrid` into a fresh board succeeds,
ending at `solB9` (the nine stage evaluations chained by
`propagateGo_append`). -/
theorem propagate_solGrid : propagateGo (toPuzzle solGrid) generate_board = .ok solB9 := by
  rw [toPuzzle_solGrid_chunks]
  rw [propagateGo_append, solveStage1]
  show propagateGo (solClues2 ++ (solClues3 ++ (solClues4 ++ (solClues5 ++ (solClues6 ++ (solClues7 ++ (solClues8 ++ (solClues9)))))))) solB1 = PRes.ok solB9
  rw [propagateGo_append, solveStage2]
  show propagateGo (solClues3 ++ (solClues4 ++ (solClues5 ++ (solClues6 ++ (solClues7 ++ (solClues8 ++ (solClues9))))))) solB2 = PRes.ok solB9
  rw [propagateGo_append, solveStage3]
  show propagateGo (solClues4 ++ (solClues5 ++ (solClues6 ++ (solClues7 ++ (solClues8 ++ (solClues9)))))) solB3 = PRes.ok solB9
  rw [propagateGo_append, solveStage4]
  show propagateGo (solClues5 ++ (solClues6 ++ (solClues7 ++ (solClues8 ++ (solClues9))))) solB4 = PRes.ok solB9
  rw [propagateGo_append, solveStage5]
  show propagateGo (solClues6 ++ (solClues7 ++ (solClues8 ++ (solClues9)))) solB5 = PRes.ok solB9
  rw [propagateGo_append, solveStage6]
  show propagateGo (solClues7 ++ (solClues8 ++ (solClues9))) solB6 = PRes.ok solB9
  rw [propagateGo_append, solveStage7]
  show propagateGo (solClues8 ++ (solClues9)) solB7 = PRes.ok solB9
  rw [propagateGo_append, solveStage8]
  show propagateGo solClues9 solB8 = PRes.ok solB9
  exact solveStage9

/-- `solB9` is completely solved, so `_search` returns it at once. -/
theorem search_solB9 : search solB9 = .ok solB9 := by decide

/-- Reading `solB9` back as a grid gives `solGrid`. -/
theorem toGrid_solB9 : toGrid solB9 = solGrid := by decide

/-- `solve` unfolded on a grid whose propagation and search both succeed. -/
theorem solveCore_eq_done (g : Grid) (b : Board)
    (h1 : propagateGo (toPuzzle g) generate_board = .ok b)
    (h2 : search b = .ok b) :
    solveCore g = .done (some (toGrid b)) := by
  unfold solveCore
  rw [h1]
  show (match search b with
    | .ok sol => SR.done (some (toGrid sol))
    | .fail => SR.done none
    | .out => SR.timeout) = SR.done (some (toGrid b))
  rw [h2]

/-- `solve` reads the result off `solveCore`. -/
theorem solve_eq_some (g : Grid) (r : Option Grid) (h : solveCore g = .done r) :
    solve g = r := by
  unfold solve
  rw [h]

end CPB

/-- The classic example solution grid solves to itself (propagation alone
completes it); shared evaluation for the witnesses of C1 and C2. -/
theorem solve_solGrid_eq : CPB.solve CPB.solGrid = some CPB.solGrid := by
  have h := CPB.solve_eq_some CPB.solGrid (some (CPB.toGrid CPB.solB9))
    (CPB.solveCore_eq_done CPB.solGrid CPB.solB9 CPB.propagate_solGrid CPB.search_solB9)
  rw [CPB.toGrid_solB9] at h
  exact h

/-- Witness for `CPB.solve_output_valid` at the full example grid. -/
theorem solve_output_valid_witness :
    CPB.GridOk CPB.solGrid ∧ CPB.solve CPB.solGrid = some CPB.solGrid ∧
      ∀ row ∈ CPB.solGrid, ∀ v ∈ row, v ∈ CPB.digits :=
  ⟨by decide, solve_solGrid_eq,
    (CPB.solve_output_valid CPB.solGrid CPB.solGrid (by decide) solve_solGrid_eq).1⟩

/-- Witness for `CPB.solve_preserves_clues` at the full example grid and
its top-left clue. -/
theorem solve_preserves_clues_witness :
    CPB.GridOk CPB.solGrid ∧ CPB.solve CPB.solGrid = some CPB.solGrid ∧
      (0 : Nat) < 9 ∧ (CPB.solGrid.getD 0 []).getD 0 0 ≠ 0 ∧
      (CPB.solGrid.getD 0 []).getD 0 0 = (CPB.solGrid.getD 0 []).getD 0 0 :=
  ⟨by decide, solve_solGrid_eq, by decide, by decide,
    CPB.solve_preserves_clues CPB.solGrid CPB.solGrid (by decide) solve_solGrid_eq 0 0
      (by decide) (by decide) (by decide)⟩

/-- Witness for `CPB.duplicate_clues_unsolvable`: the 7 at row 0 and the 7
at row 4 of column 2 of `dupColGrid` force failure. -/
theorem duplicate_clues_unsolvable_witness :
    CPB.GridOk CPB.dupColGrid ∧ ¬((0 : Nat) = 4 ∧ (2 : Nat) = 2) ∧
      (CPB.dupColGrid.getD 0 []).getD 2 0 = (CPB.dupColGrid.getD 4 []).getD 2 0 ∧
      (CPB.dupColGrid.getD 0 []).getD 2 0 ≠ 0 ∧
      CPB.solve CPB.dupColGrid = none :=
  ⟨by decide, by decide, by decide, by decide,
    CPB.duplicate_clues_unsolvable CPB.dupColGrid 0 2 4 2 (by decide) (by decide) (by decide)
      (by decide) (by decide) (by decide) (Or.inr (Or.inl rfl)) (by decide) (by decide)⟩

/-- Witness for `CPB.search_branch_behavior` on the fresh board, a branch
state with maximal ambiguity. -/
theorem search_branch_behavior_witness :
    CPB.WB CPB.generate_board ∧ CPB.NEB CPB.generate_board ∧
      (∃ s, s < 81 ∧ 1 < (CPB.bcell CPB.generate_board s).length) ∧
      CPB.allSolved CPB.generate_board = false ∧
      List.Sorted (· < ·)
        (CPB.bcell CPB.generate_board (CPB.chooseSq CPB.generate_board).2) :=
  ⟨CPB.WB_generate_board, CPB.NEB_generate_board, ⟨0, by decide, by decide⟩, by decide,
    (CPB.search_branch_behavior CPB.generate_board 5 CPB.WB_generate_board
      CPB.NEB_generate_board ⟨0, by decide, by decide⟩ (by decide)).2.1⟩

/-- Witness for `CPB.propagate_idempotent` at the one-clue grid. -/
theorem propagate_idempotent_witness :
    CPB.GridOk CPB.oneClueGrid ∧
      CPB.propagateGo (CPB.toPuzzle CPB.oneClueGrid) CPB.generate_board = .ok CPB.wb7 ∧
      CPB.propagateGo (CPB.toPuzzle CPB.oneClueGrid) CPB.wb7 = .ok CPB.wb7 := by
  have hpp : CPB.propagateGo (CPB.toPuzzle CPB.oneClueGrid) CPB.generate_board =
      .ok CPB.wb7 := by decide
  exact ⟨by decide, hpp, CPB.propagate_idempotent CPB.oneClueGrid CPB.wb7 (by decide) hpp⟩

/-- Witness for `CPB.solve_terminates` at the all-blank grid of canonical
scenario 2. -/
theorem solve_terminates_witness :
    CPB.GridOk CPB.blankGrid ∧ CPB.solveCore CPB.blankGrid ≠ .timeout :=
  ⟨by decide, CPB.solve_terminates CPB.blankGrid (by decide)⟩

/-- Witness for `CPB.assign_absent_digit_fails`: A1 narrowed to 1 and 2
rejects an assignment of 5. -/
theorem assign_absent_digit_fails_witness :
    CPB.WB CPB.bAbsent ∧ CPB.bcell CPB.bAbsent 0 ≠ [] ∧
      (5 : Nat) ∉ CPB.bcell CPB.bAbsent 0 ∧
      CPB.assign_value CPB.bAbsent 0 5 = .fail := by
  have hwb : CPB.WB CPB.bAbsent := CPB.WB_of_forall_lt (by decide) (by decide)
  exact ⟨hwb, by decide, by decide,
    CPB.assign_absent_digit_fails CPB.bAbsent 0 5 hwb (by decide) (by decide)⟩

end Claims
